import Mathlib

/-!
# Verification of the neon/ribbon stroke engine

Shallow embedding of the stroke-geometry core of the `cursor-vision`
drawing application, together with proofs of the specification's
testable properties.

Embedding conventions:
* `src/engine/strokeSystem.ts` uses only field arithmetic, `floor`,
  `round`, `min`/`max`, so it is embedded exactly over `ℚ`
  (fully executable; JS double rounding is modelled as exact
  arithmetic, the standard concession of a shallow embedding).
* `src/engine/ribbonMesh.ts` needs `sqrt`, `cos`, `sin`, `atan2`, `π`,
  so it is embedded over `ℝ` (`Real.sqrt`, `Real.cos`, …, `Complex.arg`
  for `atan2`).
* JS arrays built by imperative `push` loops become Lean lists built by
  `map`/`flatMap`/`foldl` in the same element order.
* The `Uint16Array` index store truncates to 16 bits; this is modelled
  by an explicit `% 65536`.
-/

namespace CursorVision

/-! ## Data model: points and stroke state (`strokeSystem.ts`) -/

/-- The `Point` from `strokeSystem.ts`: screen-space coordinates. -/
structure Point where
  x : ℚ
  y : ℚ
deriving DecidableEq, Repr

instance : Inhabited Point := ⟨⟨0, 0⟩⟩

/-- The `StrokeState` from `strokeSystem.ts`. -/
structure StrokeState where
  isDrawing : Bool
  rawPoints : List Point
  smoothedPoints : List Point
deriving DecidableEq, Repr

/-- The `MIN_DISTANCE = 3` (px) from `strokeSystem.ts`. -/
def MIN_DISTANCE : ℚ := 3

/-- The `MAX_POINTS = 2000` from `strokeSystem.ts`. -/
def MAX_POINTS : ℕ := 2000

/-- The `createStrokeState()` from `strokeSystem.ts`. -/
def createStrokeState : StrokeState :=
  { isDrawing := false, rawPoints := [], smoothedPoints := [] }

/-! ## Catmull-Rom smoothing (`smoothPoints`) -/

/-- One Catmull-Rom basis evaluation, the `out.push({...})` body of
`smoothPoints`. -/
def catmullRom (p0 p1 p2 p3 : Point) (f : ℚ) : Point :=
  let f2 := f * f
  let f3 := f2 * f
  { x := 0.5 * (2 * p1.x + (-p0.x + p2.x) * f +
        (2 * p0.x - 5 * p1.x + 4 * p2.x - p3.x) * f2 +
        (-p0.x + 3 * p1.x - 3 * p2.x + p3.x) * f3),
    y := 0.5 * (2 * p1.y + (-p0.y + p2.y) * f +
        (2 * p0.y - 5 * p1.y + 4 * p2.y - p3.y) * f2 +
        (-p0.y + 3 * p1.y - 3 * p2.y + p3.y) * f3) }

/-- The `smoothPoints(pts, segments = 3)` from `strokeSystem.ts`.
The JS double loop (`i` over segment starts, `t` over sub-samples)
becomes `flatMap` over `List.range`; clamped neighbour indices
`Math.max(0, i-1)` / `Math.min(n-1, i+2)` are Nat-truncated subtraction
and `min`. -/
def smoothPoints (pts : List Point) (segments : ℕ := 3) : List Point :=
  if pts.length < 3 then pts
  else
    ((List.range (pts.length - 1)).flatMap fun i =>
      let p0 := pts.getD (i - 1) default
      let p1 := pts.getD i default
      let p2 := pts.getD (i + 1) default
      let p3 := pts.getD (min (pts.length - 1) (i + 2)) default
      (List.range segments).map fun t =>
        catmullRom p0 p1 p2 p3 ((t : ℚ) / (segments : ℚ)))
    ++ [pts.getLastD default]

/-! ## Stroke lifecycle (`startStroke` / `addPoint` / `endStroke` /
`resetStroke`) -/

/-- The `startStroke` from `strokeSystem.ts`. -/
def startStroke (_s : StrokeState) (x y : ℚ) : StrokeState :=
  { isDrawing := true, rawPoints := [⟨x, y⟩], smoothedPoints := [⟨x, y⟩] }

/-- The `addPoint` from `strokeSystem.ts`.  Returns the updated state plus
the JS boolean result.  The source reads
`state.rawPoints[state.rawPoints.length - 1]` unconditionally; on the
(unreachable from a fresh state) combination `isDrawing ∧ rawPoints = []`
JS would throw, modelled here as a rejecting no-op. -/
def addPoint (s : StrokeState) (x y : ℚ) : StrokeState × Bool :=
  if s.isDrawing = false then (s, false)
  else
    match s.rawPoints.getLast? with
    | none => (s, false)
    | some last =>
      let dx := x - last.x
      let dy := y - last.y
      if dx * dx + dy * dy < MIN_DISTANCE * MIN_DISTANCE then (s, false)
      else
        let trimmed :=
          if MAX_POINTS ≤ s.rawPoints.length then s.rawPoints.tail
          else s.rawPoints
        let raw := trimmed ++ [⟨x, y⟩]
        ({ isDrawing := s.isDrawing, rawPoints := raw,
           smoothedPoints := smoothPoints raw }, true)

/-- The `endStroke` from `strokeSystem.ts`. -/
def endStroke (s : StrokeState) : StrokeState :=
  { s with isDrawing := false }

/-- The `resetStroke` from `strokeSystem.ts`. -/
def resetStroke (_s : StrokeState) : StrokeState :=
  { isDrawing := false, rawPoints := [], smoothedPoints := [] }

/-- States reachable from a fresh `createStrokeState` by any sequence of
lifecycle operations. -/
inductive Reachable : StrokeState → Prop
  | fresh : Reachable createStrokeState
  | start (s : StrokeState) (x y : ℚ) :
      Reachable s → Reachable (startStroke s x y)
  | add (s : StrokeState) (x y : ℚ) :
      Reachable s → Reachable (addPoint s x y).1
  | stop (s : StrokeState) : Reachable s → Reachable (endStroke s)
  | reset (s : StrokeState) : Reachable s → Reachable (resetStroke s)

/-! ## Colour helpers (`interpolateColor`)

A palette entry is modelled as the RGB triple that `hexToRgb` parses
out of the `'#rrggbb'` string (string parsing itself carries no logic:
`hexToRgb` is a bijection between well-formed hex strings and triples).
-/

/-- An RGB triple as produced from `hexToRgb` in `strokeSystem.ts`. -/
structure RGB where
  r : ℕ
  g : ℕ
  b : ℕ
deriving DecidableEq, Repr

instance : Inhabited RGB := ⟨⟨0, 0, 0⟩⟩

/-- JS truncation toward zero, as used by the JS `%` operator. -/
def truncQ (q : ℚ) : ℤ := if 0 ≤ q then ⌊q⌋ else ⌈q⌉

/-- The JS remainder `a % b` (sign of the dividend). -/
def jsMod (a b : ℚ) : ℚ := a - b * truncQ (a / b)

/-- The `((t % 1) + 1) % 1`, the wrap of `t` into `[0,1)` used by
`interpolateColor` and `drawStroke`. -/
def wrap01 (t : ℚ) : ℚ := jsMod (jsMod t 1 + 1) 1

/-- JS `Math.round` (half-up, also for negatives). -/
def jsRound (q : ℚ) : ℤ := ⌊q + 1 / 2⌋

/-- The `(r << 16) | (g << 8) | b` — for the in-range channels produced by
`interpolateColor` this is exactly the packed 24-bit value. -/
def packRGB (r g b : ℕ) : ℕ := (r <<< 16) ||| (g <<< 8) ||| b

/-- The `interpolateColor(palette, t)` from `strokeSystem.ts`.  JS
`Math.min(Math.floor(seg), n - 2)` is computed in `ℤ` and only then
clamped to a list position (negative only for the out-of-contract empty
palette, where JS would throw on `undefined`). -/
def interpolateColor (palette : List RGB) (t : ℚ) : ℕ :=
  let t := wrap01 t
  if palette.length = 1 then
    packRGB (palette.getD 0 default).r (palette.getD 0 default).g
      (palette.getD 0 default).b
  else
    let seg : ℚ := t * ((palette.length : ℚ) - 1)
    let i : ℤ := min ⌊seg⌋ ((palette.length : ℤ) - 2)
    let f : ℚ := seg - (i : ℚ)
    let c1 := palette.getD i.toNat default
    let c2 := palette.getD (i.toNat + 1) default
    let r := jsRound ((c1.r : ℚ) + ((c2.r : ℚ) - (c1.r : ℚ)) * f)
    let g := jsRound ((c1.g : ℚ) + ((c2.g : ℚ) - (c1.g : ℚ)) * f)
    let b := jsRound ((c1.b : ℚ) + ((c2.b : ℚ) - (c1.b : ℚ)) * f)
    packRGB r.toNat g.toNat b.toNat

/-! ## Neon stroke renderer (`drawStroke`)

A `PIXI.Graphics` layer is modelled by the list of drawing commands
issued to it.  The source only ever issues round-capped, round-joined
`lineStyle`/`moveTo`/`lineTo` polyline chunks (always with
`alpha: 1`); a circle-stamp command constructor is included so that the
spec's circle-stamp description is expressible. -/

/-- A drawing command issued to a graphics layer. -/
inductive GfxCmd where
  /-- A filled fully-opaque circle stamp (never emitted by the code,
  present to state the spec's claim). -/
  | stampCircle (cx cy radius : ℚ) (color : ℕ)
  /-- A round-capped, round-joined polyline chunk drawn at full internal
  alpha (`lineStyle({width, color, alpha: 1, cap: ROUND, join: ROUND})`
  followed by `moveTo`/`lineTo` over `path`). -/
  | strokePath (width : ℚ) (color : ℕ) (path : List Point)
deriving DecidableEq, Repr

/-- Is this command a circle stamp? -/
def GfxCmd.isStamp : GfxCmd → Bool
  | .stampCircle _ _ _ _ => true
  | .strokePath _ _ _ => false

/-- The `colorSteps = Math.min(n - 1, 64)` in `drawStroke`. -/
def colorSteps (n : ℕ) : ℕ := min (n - 1) 64

/-- The `from` of the `range` helper in `drawStroke`:
`Math.floor((c / colorSteps) * (n - 1))`. -/
def chunkFrom (n c : ℕ) : ℕ := c * (n - 1) / colorSteps n

/-- The `to` of the `range` helper in `drawStroke`:
`Math.floor(((c + 1) / colorSteps) * (n - 1))`. -/
def chunkTo (n c : ℕ) : ℕ := (c + 1) * (n - 1) / colorSteps n

/-- The inclusive sub-path `points[from..to]` traced by
`moveTo(points[from]); lineTo(points[from+1..to])`. -/
def pathSlice (points : List Point) (a b : ℕ) : List Point :=
  (points.drop a).take (b - a + 1)

/-- The gradient colour parameter of chunk `c`:
`((c / Math.max(1, colorSteps - 1) + gradientOffset) % 1 + 1) % 1`. -/
def chunkT (n c : ℕ) (gradientOffset : ℚ) : ℚ :=
  wrap01 ((c : ℚ) / ((max 1 (colorSteps n - 1) : ℕ) : ℚ) + gradientOffset)

/-- The `drawGradientLine` from `drawStroke`: one polyline chunk per colour
step, skipping empty ranges (`to <= from`). -/
def drawGradientLine (points : List Point) (palette : List RGB)
    (gradientOffset width : ℚ) : List GfxCmd :=
  let n := points.length
  (List.range (colorSteps n)).flatMap fun c =>
    if chunkTo n c ≤ chunkFrom n c then []
    else [GfxCmd.strokePath width (interpolateColor palette (chunkT n c gradientOffset))
            (pathSlice points (chunkFrom n c) (chunkTo n c))]

/-- The three-layer `StrokeGraphics` target of `strokeSystem.ts`,
reduced to its observable drawing state: the command list of each
`Graphics` plus the two `AlphaFilter` alphas. -/
structure StrokeGraphics where
  glow : List GfxCmd
  edge : List GfxCmd
  body : List GfxCmd
  glowAlpha : ℚ
  edgeAlpha : ℚ
deriving DecidableEq, Repr

/-- The `createStrokeGraphics()`: fresh layers, both `AlphaFilter`s at 1. -/
def createStrokeGraphics : StrokeGraphics :=
  { glow := [], edge := [], body := [], glowAlpha := 1, edgeAlpha := 1 }

/-- The `clearStrokeGraphics(sg)`: clears the three `Graphics`, leaves the
alpha filters untouched. -/
def clearStrokeGraphics (sg : StrokeGraphics) : StrokeGraphics :=
  { sg with glow := [], edge := [], body := [] }

/-- The `drawStroke` from `strokeSystem.ts`: clear all layers, early-out on
fewer than 2 points, then draw glow / edge / body as gradient polyline
chunks (glow and edge skipped, with alpha forced to 0, when their width
multiplier is ≤ 0.02). -/
def drawStroke (sg : StrokeGraphics) (points : List Point)
    (palette : List RGB) (brushSize hardness : ℚ)
    (gradientOffset : ℚ := 0) : StrokeGraphics :=
  let sg := clearStrokeGraphics sg
  if points.length < 2 then sg
  else
    let glowMul := (1 - hardness) * 1.6
    let glow :=
      if 0.02 < glowMul then
        drawGradientLine points palette gradientOffset (brushSize * (1 + glowMul))
      else []
    let glowAlpha := if 0.02 < glowMul then 0.2 * (1 - hardness) else 0
    let edgeMul := 0.35 * (1 - hardness * 0.6)
    let edge :=
      if 0.02 < edgeMul then
        drawGradientLine points palette gradientOffset (brushSize * (1 + edgeMul))
      else []
    let edgeAlpha := if 0.02 < edgeMul then 0.45 * (1 - hardness * 0.4) else 0
    let body := drawGradientLine points palette gradientOffset brushSize
    { glow := glow, edge := edge, body := body,
      glowAlpha := glowAlpha, edgeAlpha := edgeAlpha }

/-! ## Ribbon geometry builder (`ribbonMesh.ts`)

This part of the source needs `sqrt`, `sin`, `cos`, `atan2` and `π`, so
it is embedded over `ℝ`. -/

noncomputable section

/-- A screen-space point as consumed by `ribbonMesh.ts` (the same JS
`Point`, embedded over `ℝ` because the geometry builder computes with
square roots and trigonometry). -/
structure PointR where
  x : ℝ
  y : ℝ

instance : Inhabited PointR := ⟨⟨0, 0⟩⟩

/-- JS `Math.atan2(y, x)`, the angle of `(x, y)` in `(-π, π]`. -/
def atan2 (y x : ℝ) : ℝ := Complex.arg ⟨x, y⟩

/-- One entry of the `segDir` array: unit direction of a segment and its
left-hand perpendicular normal. -/
structure SegDir where
  dx : ℝ
  dy : ℝ
  nx : ℝ
  ny : ℝ

instance : Inhabited SegDir := ⟨⟨0, 0, 0, 0⟩⟩

/-- One `segDir` entry: `l = Math.sqrt(dx*dx + dy*dy) || 1`, then
`{dx: dx/l, dy: dy/l, nx: -dy/l, ny: dx/l}` (the JS `|| 1` fallback
fires exactly when the square root is `0`). -/
def mkSegDir (p q : PointR) : SegDir :=
  let dx := q.x - p.x
  let dy := q.y - p.y
  let l0 := Real.sqrt (dx * dx + dy * dy)
  let l := if l0 = 0 then 1 else l0
  ⟨dx / l, dy / l, -(dy / l), dx / l⟩

/-- The `segDir` array of `buildRibbonGeometry`. -/
def segDirs (points : List PointR) : List SegDir :=
  (List.range (points.length - 1)).map fun i =>
    mkSegDir (points.getD i default) (points.getD (i + 1) default)

/-- Per-point tangent of `buildRibbonGeometry`: the adjacent segment
direction at the endpoints, otherwise the two neighbours' directions
averaged and normalised (`|| 1` fallback on the length). -/
def tangAt (sd : List SegDir) (n i : ℕ) : ℝ × ℝ :=
  if i = 0 then ((sd.getD 0 default).dx, (sd.getD 0 default).dy)
  else if i = n - 1 then
    ((sd.getD (n - 2) default).dx, (sd.getD (n - 2) default).dy)
  else
    let tx := (sd.getD (i - 1) default).dx + (sd.getD i default).dx
    let ty := (sd.getD (i - 1) default).dy + (sd.getD i default).dy
    let l0 := Real.sqrt (tx * tx + ty * ty)
    let l := if l0 = 0 then 1 else l0
    (tx / l, ty / l)

/-- The `tang` array (unit tangents only; the angles live in
`rawAngles`). -/
def tangents (points : List PointR) : List (ℝ × ℝ) :=
  (List.range points.length).map fun i => tangAt (segDirs points) points.length i

/-- The `Math.atan2(ty, tx)` angles of the `tang` array, before
unwrapping. -/
def rawAngles (points : List PointR) : List ℝ :=
  (tangents points).map fun t => atan2 t.2 t.1

/-- Closed form of the source's unwrap loops
`while (a - prev > π) a -= 2π; while (a - prev < -π) a += 2π`:
each loop runs `⌈·⌉` times, so the result is `a` shifted by that
integer multiple of `2π` (the first loop leaves the difference in
`(-π, π]`, so at most one of the branches fires). -/
def unwrapStep (prev a : ℝ) : ℝ :=
  if Real.pi < a - prev then
    a - 2 * Real.pi * ⌈(a - prev - Real.pi) / (2 * Real.pi)⌉
  else if a - prev < -Real.pi then
    a + 2 * Real.pi * ⌈(-Real.pi - (a - prev)) / (2 * Real.pi)⌉
  else a

/-- Sequential unwrap of the angles after a given, already unwrapped,
previous angle. -/
def unwrapFrom (prev : ℝ) : List ℝ → List ℝ
  | [] => []
  | a :: rest =>
    let a' := unwrapStep prev a
    a' :: unwrapFrom a' rest

/-- The in-place unwrap pass of `buildRibbonGeometry` (`i = 1 .. n-1`,
each angle adjusted against its already-adjusted predecessor). -/
def unwrapAngles : List ℝ → List ℝ
  | [] => []
  | a :: rest => a :: unwrapFrom a rest

/-- Cumulative arc length (`dists` array): starts at `0`, adds each
segment's Euclidean length. -/
def dists (points : List PointR) : List ℝ :=
  List.scanl
    (fun acc pq =>
      acc + Real.sqrt ((pq.2.x - pq.1.x) * (pq.2.x - pq.1.x) +
        (pq.2.y - pq.1.y) * (pq.2.y - pq.1.y)))
    0 (points.zip points.tail)

/-- The `totalLen = dists[n - 1] || 1`. -/
def totalLen (points : List PointR) : ℝ :=
  let d := (dists points).getLastD 0
  if d = 0 then 1 else d

/-- Normalised arc-length parameter `u` of centreline point `i`. -/
def uCoord (points : List PointR) (i : ℕ) : ℝ :=
  (dists points).getD i 0 / totalLen points

/-- The `MITER_LIMIT = 2.0` from `buildRibbonGeometry`. -/
def MITER_LIMIT : ℝ := 2

/-- The strip offset `(offx, offy)` applied at centreline point `i`:
segment normal times `halfWidth` at the endpoints; at interior points
the miter join — normalised bisector of the two adjacent segment
normals, scaled by `halfWidth · min(1 / max(m·n₁, 0.01), MITER_LIMIT)`,
falling back to the incoming segment's normal when the bisector is
shorter than `1e-6`. -/
def stripOffset (points : List PointR) (halfWidth : ℝ) (i : ℕ) : ℝ × ℝ :=
  let sd := segDirs points
  let n := points.length
  if i = 0 then
    ((sd.getD 0 default).nx * halfWidth, (sd.getD 0 default).ny * halfWidth)
  else if i = n - 1 then
    ((sd.getD (n - 2) default).nx * halfWidth,
     (sd.getD (n - 2) default).ny * halfWidth)
  else
    let s1 := sd.getD (i - 1) default
    let s2 := sd.getD i default
    let mx := s1.nx + s2.nx
    let my := s1.ny + s2.ny
    let ml := Real.sqrt (mx * mx + my * my)
    if ml < 1e-6 then (s1.nx * halfWidth, s1.ny * halfWidth)
    else
      let mx := mx / ml
      let my := my / ml
      let dot := mx * s1.nx + my * s1.ny
      let scale := min (1 / max dot 0.01) MITER_LIMIT
      (mx * halfWidth * scale, my * halfWidth * scale)

/-- The strip's flat position buffer: per centreline point, left vertex
(`point + offset`) then right vertex (`point - offset`), two floats
each. -/
def stripPositions (points : List PointR) (halfWidth : ℝ) : List ℝ :=
  (List.range points.length).flatMap fun i =>
    let p := points.getD i default
    let o := stripOffset points halfWidth i
    [p.x + o.1, p.y + o.2, p.x - o.1, p.y - o.2]

/-- The strip's flat UV buffer: `(u, 0)` for the left vertex, `(u, 1)`
for the right. -/
def stripUvs (points : List PointR) : List ℝ :=
  (List.range points.length).flatMap fun i =>
    [uCoord points i, 0, uCoord points i, 1]

/-- The strip's tangent-angle buffer: each centreline point's unwrapped
angle, once per strip vertex. -/
def stripAngles (points : List PointR) : List ℝ :=
  (unwrapAngles (rawAngles points)).flatMap fun a => [a, a]

/-- The strip's index list: for `i > 0` the two triangles
`(p, p+1, c)` and `(p+1, c+1, c)` with `c = 2i`, `p = 2i - 2`. -/
def stripIndices (n : ℕ) : List ℕ :=
  (List.range n).flatMap fun i =>
    if i = 0 then []
    else [2 * i - 2, 2 * i - 1, 2 * i, 2 * i - 1, 2 * i + 1, 2 * i]

/-- The mutable builder state threaded through `addTaperCap`: the four
growing arrays, the running vertex counter `vi` and the previous ring's
left/right vertex indices. -/
structure CapAcc where
  pos : List ℝ
  uv : List ℝ
  ta : List ℝ
  idx : List ℕ
  vi : ℕ
  pL : ℕ
  pR : ℕ

/-- One iteration (`k = 1 .. taperSteps`) of the `addTaperCap` loop:
an intermediate ring pushes a left/right vertex pair and two quad
triangles; the final step pushes the pole vertex and one closing
triangle. -/
def capStep (origin : PointR) (tangent : ℝ × ℝ) (tangentAngle : ℝ)
    (halfW capU dir : ℝ) (taperSteps : ℕ) (acc : CapAcc) (k : ℕ) : CapAcc :=
  let nx := -tangent.2
  let ny := tangent.1
  let frac := (k : ℝ) / (taperSteps : ℝ)
  let ang := frac * Real.pi / 2
  let ringW := halfW * Real.cos ang
  let axial := halfW * Real.sin ang
  let cx := origin.x + tangent.1 * axial * dir
  let cy := origin.y + tangent.2 * axial * dir
  if k < taperSteps then
    { pos := acc.pos ++ [cx + nx * ringW, cy + ny * ringW,
        cx - nx * ringW, cy - ny * ringW],
      uv := acc.uv ++ [capU, 0, capU, 1],
      ta := acc.ta ++ [tangentAngle, tangentAngle],
      idx := acc.idx ++ [acc.pL, acc.pR, acc.vi, acc.pR, acc.vi + 1, acc.vi],
      vi := acc.vi + 2, pL := acc.vi, pR := acc.vi + 1 }
  else
    { pos := acc.pos ++ [cx, cy],
      uv := acc.uv ++ [capU, 0.5],
      ta := acc.ta ++ [tangentAngle],
      idx := acc.idx ++ [acc.pL, acc.pR, acc.vi],
      vi := acc.vi + 1, pL := acc.pL, pR := acc.pR }

/-- The `addTaperCap` from `ribbonMesh.ts`: hemisphere taper rings closing
one end of the ribbon, stitched onto the strip boundary vertices
`prevLeft`/`prevRight`. -/
def addTaperCap (origin : PointR) (tangent : ℝ × ℝ) (tangentAngle : ℝ)
    (halfW capU dir : ℝ) (taperSteps : ℕ) (prevLeft prevRight : ℕ)
    (acc : CapAcc) : CapAcc :=
  (List.range' 1 taperSteps).foldl
    (capStep origin tangent tangentAngle halfW capU dir taperSteps)
    { acc with pL := prevLeft, pR := prevRight }

/-- The `GeoData` buffers returned by `buildRibbonGeometry`. -/
structure GeoData where
  positions : List ℝ
  uvs : List ℝ
  tangentAngles : List ℝ
  indices : List ℕ

/-- The `EMPTY_GEO`: the one-triangle placeholder for degenerate input. -/
def EMPTY_GEO : GeoData :=
  { positions := [0, 0, 1, 0, 0, 1],
    uvs := [0, 0, 0, 0, 0, 0],
    tangentAngles := [0, 0, 0],
    indices := [0, 1, 2] }

/-- The `TAPER_STEPS = 14` from `buildRibbonGeometry`. -/
def TAPER_STEPS : ℕ := 14

/-- The `buildRibbonGeometry(points, halfWidth)` from `ribbonMesh.ts`
(the hemisphere-taper version): placeholder for fewer than 2 points,
otherwise the miter-join strip followed by the start cap (extending
backward, `capU = 0`) and the end cap (extending forward, `capU = 1`).
Indices are stored into a `Uint16Array`, modelled by `% 65536`. -/
def buildRibbonGeometry (points : List PointR) (halfWidth : ℝ) : GeoData :=
  let n := points.length
  if n < 2 then EMPTY_GEO
  else
    let uAng := unwrapAngles (rawAngles points)
    let tg := tangents points
    let strip : CapAcc :=
      { pos := stripPositions points halfWidth,
        uv := stripUvs points,
        ta := stripAngles points,
        idx := stripIndices n,
        vi := 2 * n, pL := 0, pR := 1 }
    let afterStart :=
      addTaperCap (points.getD 0 default) (tg.getD 0 default)
        (uAng.getD 0 0) halfWidth 0 (-1) TAPER_STEPS 0 1 strip
    let afterEnd :=
      addTaperCap (points.getD (n - 1) default) (tg.getD (n - 1) default)
        (uAng.getD (n - 1) 0) halfWidth 1 1 TAPER_STEPS
        (2 * (n - 1)) (2 * (n - 1) + 1) afterStart
    { positions := afterEnd.pos,
      uvs := afterEnd.uv,
      tangentAngles := afterEnd.ta,
      indices := afterEnd.idx.map (· % 65536) }

/-! ## Stroke lifecycle manager (`createRenderer.ts`)

Only the observable commit behaviour is modelled: the ordered list of
committed artifacts in `strokeLayer`, the live neon layers, and the
live ribbon mesh's visibility flag. -/

/-- The standalone container built by `commitRibbonToContainer`: empty
for fewer than 2 points, otherwise one mesh with baked geometry,
palette and offset. -/
structure RibbonContainer where
  mesh : Option (GeoData × List RGB × ℝ)

/-- The `commitRibbonToContainer(points, palette, brushSize,
gradientOffset)` from `ribbonMesh.ts`: early-out empty container on
fewer than 2 points, otherwise a mesh over
`buildRibbonGeometry(points, brushSize / 2)`. -/
def commitRibbonToContainer (points : List PointR) (palette : List RGB)
    (brushSize gradientOffset : ℝ) : RibbonContainer :=
  if points.length < 2 then ⟨none⟩
  else ⟨some (buildRibbonGeometry points (brushSize / 2), palette, gradientOffset)⟩

/-- One committed stroke living in `strokeLayer`. -/
inductive Artifact where
  /-- A committed neon stroke (baked `StrokeGraphics`). -/
  | neon (layers : StrokeGraphics)
  /-- A committed ribbon stroke container. -/
  | ribbon (c : RibbonContainer)

/-- The observable state of the `RenderContext` of `createRenderer.ts`. -/
structure RenderContext where
  strokeLayer : List Artifact
  activeStroke : StrokeGraphics
  activeRibbonVisible : Bool

/-- The `clearRibbonStroke` from `ribbonMesh.ts`: hide the live mesh. -/
def clearRibbonStroke (visible : Bool) : Bool := visible && false

/-- The `commitNeonStroke` from `createRenderer.ts`: with fewer than 2
points only clear the live layers; otherwise draw the stroke into a
fresh `StrokeGraphics`, append it to `strokeLayer`, then clear the live
layers. -/
def commitNeonStroke (ctx : RenderContext) (points : List Point)
    (palette : List RGB) (brushSize hardness gradientOffset : ℚ) :
    RenderContext :=
  if points.length < 2 then
    { ctx with activeStroke := clearStrokeGraphics ctx.activeStroke }
  else
    let committed :=
      drawStroke createStrokeGraphics points palette brushSize hardness
        gradientOffset
    { ctx with
      strokeLayer := ctx.strokeLayer ++ [Artifact.neon committed],
      activeStroke := clearStrokeGraphics ctx.activeStroke }

/-- The `commitRibbonStroke` from `createRenderer.ts`: with fewer than 2
points only hide the live ribbon; otherwise append the committed
container to `strokeLayer` and hide the live ribbon. -/
def commitRibbonStroke (ctx : RenderContext) (points : List PointR)
    (palette : List RGB) (brushSize gradientOffset : ℝ) : RenderContext :=
  if points.length < 2 then
    { ctx with activeRibbonVisible := clearRibbonStroke ctx.activeRibbonVisible }
  else
    let committed := commitRibbonToContainer points palette brushSize gradientOffset
    { ctx with
      strokeLayer := ctx.strokeLayer ++ [Artifact.ribbon committed],
      activeRibbonVisible := clearRibbonStroke ctx.activeRibbonVisible }

end

/-! # Supporting lemmas -/

lemma getLast?_eq_some_getLastD {α : Type*} [Inhabited α] (l : List α)
    (h : l ≠ []) : l.getLast? = some (l.getLastD default) := by
  cases l with
  | nil => exact absurd rfl h
  | cons a t =>
    rw [List.getLastD_eq_getLast?]
    cases h' : (a :: t).getLast? with
    | none => simp at h'
    | some b => rfl

lemma length_flatMap_range_const {α : Type*} (f : ℕ → List α) (k : ℕ) :
    ∀ n, (∀ i, i < n → (f i).length = k) →
      ((List.range n).flatMap f).length = k * n := by
  intro n
  induction n with
  | zero => simp
  | succ m ih =>
    intro h
    rw [List.range_succ, List.flatMap_append, List.length_append,
      ih fun i hi => h i (by omega)]
    simp [h m (by omega), Nat.mul_succ]

/-- Case dispatch for `addPoint`: a `false` result is a no-op and happens
exactly on the rejection conditions; a `true` result appends the point
(dropping the oldest at the cap) and recomputes the smoothed points. -/
lemma addPoint_spec (s : StrokeState) (x y : ℚ) :
    ((addPoint s x y).2 = false → addPoint s x y = (s, false)) ∧
    ((addPoint s x y).2 = false ↔
      s.isDrawing = false ∨ s.rawPoints.getLast? = none ∨
        ∃ p, s.rawPoints.getLast? = some p ∧
          (x - p.x) * (x - p.x) + (y - p.y) * (y - p.y) <
            MIN_DISTANCE * MIN_DISTANCE) ∧
    ((addPoint s x y).2 = true →
      (addPoint s x y).1 =
        { isDrawing := s.isDrawing,
          rawPoints := (if MAX_POINTS ≤ s.rawPoints.length then
              s.rawPoints.tail else s.rawPoints) ++ [⟨x, y⟩],
          smoothedPoints := smoothPoints ((if MAX_POINTS ≤ s.rawPoints.length
              then s.rawPoints.tail else s.rawPoints) ++ [⟨x, y⟩]) }) := by
  by_cases hd : s.isDrawing = false
  · simp [addPoint, hd]
  · cases hlast : s.rawPoints.getLast? with
    | none => simp [addPoint, hd, hlast]
    | some p =>
      by_cases hdist :
        (x - p.x) * (x - p.x) + (y - p.y) * (y - p.y) <
          MIN_DISTANCE * MIN_DISTANCE
      · simp [addPoint, hd, hlast, hdist]
      · simp [addPoint, hd, hlast, hdist]

lemma tail_getLast? {α : Type*} (l : List α) (h : 2 ≤ l.length) :
    l.tail.getLast? = l.getLast? := by
  match l with
  | [] => simp at h
  | [a] => simp at h
  | a :: b :: t => simp [List.getLast?_cons_cons]

/-- Invariant preserved by every lifecycle operation: consecutive raw
points at least `MIN_DISTANCE` apart, bounded length, and a nonempty
buffer while drawing. -/
lemma reach_inv (s : StrokeState) (h : Reachable s) :
    List.Chain' (fun p q : Point =>
      MIN_DISTANCE * MIN_DISTANCE ≤
        (q.x - p.x) * (q.x - p.x) + (q.y - p.y) * (q.y - p.y)) s.rawPoints ∧
    s.rawPoints.length ≤ MAX_POINTS ∧
    (s.isDrawing = true → s.rawPoints ≠ []) := by
  induction h with
  | fresh => exact ⟨by simp [createStrokeState], by simp [createStrokeState],
      by simp [createStrokeState]⟩
  | start s x y _ _ => exact ⟨by simp [startStroke],
      by simp [startStroke, MAX_POINTS], by simp [startStroke]⟩
  | add s x y _ ih =>
    obtain ⟨ihc, ihl, ihd⟩ := ih
    obtain ⟨hfalse, hiff, htrue⟩ := addPoint_spec s x y
    cases hfl : (addPoint s x y).2 with
    | false => rw [hfalse hfl]; exact ⟨ihc, ihl, ihd⟩
    | true =>
      have hnot : ¬(s.isDrawing = false ∨ s.rawPoints.getLast? = none ∨
          ∃ p, s.rawPoints.getLast? = some p ∧
            (x - p.x) * (x - p.x) + (y - p.y) * (y - p.y) <
              MIN_DISTANCE * MIN_DISTANCE) :=
        fun hc => absurd (hiff.mpr hc) (by simp [hfl])
      push_neg at hnot
      obtain ⟨hdraw, hsome, hfar⟩ := hnot
      rw [htrue hfl]
      obtain ⟨p, hp⟩ := Option.ne_none_iff_exists'.mp hsome
      have hfarp := hfar p hp
      by_cases hcap : MAX_POINTS ≤ s.rawPoints.length
      · have hlen2 : 2 ≤ s.rawPoints.length := le_trans (by norm_num [MAX_POINTS]) hcap
        refine ⟨?_, ?_, by simp⟩
        · rw [if_pos hcap, List.chain'_append]
          refine ⟨ihc.tail, List.chain'_singleton _, ?_⟩
          intro a ha b hb
          rw [tail_getLast? _ hlen2, hp] at ha
          simp only [List.head?_cons, Option.mem_def, Option.some_inj] at ha hb
          subst ha; subst hb
          simpa using hfarp
        · rw [if_pos hcap]
          simp only [List.length_append, List.length_tail, List.length_cons,
            List.length_nil]
          omega
      · refine ⟨?_, ?_, by simp⟩
        · rw [if_neg hcap, List.chain'_append]
          refine ⟨ihc, List.chain'_singleton _, ?_⟩
          intro a ha b hb
          rw [hp] at ha
          simp only [List.head?_cons, Option.mem_def, Option.some_inj] at ha hb
          subst ha; subst hb
          simpa using hfarp
        · rw [if_neg hcap]
          simp only [List.length_append, List.length_cons, List.length_nil]
          omega
  | stop s _ ih => exact ⟨ih.1, ih.2.1, by simp [endStroke]⟩
  | reset s _ _ => exact ⟨by simp [resetStroke], by simp [resetStroke],
      by simp [resetStroke]⟩

lemma jsMod_one (t : ℚ) : jsMod t 1 = t - truncQ t := by
  simp [jsMod]

/-- The double-`%` wrap computes the fractional part `t - ⌊t⌋`. -/
lemma wrap01_eq_fract (t : ℚ) : wrap01 t = Int.fract t := by
  unfold wrap01
  rw [jsMod_one, jsMod_one]
  rcases le_or_lt 0 t with ht | ht
  · rw [truncQ, if_pos ht]
    have h1 : t - (⌊t⌋ : ℚ) = Int.fract t := (Int.self_sub_floor t)
    rw [h1, truncQ,
      if_pos (by have := Int.fract_nonneg t; linarith : (0 : ℚ) ≤ Int.fract t + 1)]
    rw [Int.floor_add_one, Int.floor_fract]
    push_cast
    ring
  · rw [truncQ, if_neg (not_le.mpr ht)]
    by_cases hz : Int.fract t = 0
    · have hfl : t = (⌊t⌋ : ℚ) := by
        have := Int.self_sub_floor t
        rw [hz] at this
        linarith
      have hcl : ⌈t⌉ = ⌊t⌋ := by
        rw [hfl, Int.ceil_intCast, Int.floor_intCast]
      rw [hcl, hz, ← hfl]
      rw [show t - t + 1 = 1 by ring, truncQ, if_pos (by norm_num)]
      norm_num
    · have hcl : ⌈t⌉ = ⌊t⌋ + 1 := by
        have hle := Int.ceil_le_floor_add_one t
        have hlt : (⌊t⌋ : ℤ) < ⌈t⌉ := by
          by_contra hcon
          push_neg at hcon
          have h1 : (⌈t⌉ : ℚ) ≤ (⌊t⌋ : ℚ) := by exact_mod_cast hcon
          have h2 := Int.le_ceil t
          have h3 := Int.floor_le t
          have : t = (⌊t⌋ : ℚ) := le_antisymm (le_trans h2 h1) h3
          exact hz (by rw [Int.fract, this]; simp)
        omega
      have hm : t - (⌈t⌉ : ℚ) + 1 = Int.fract t := by
        rw [hcl, Int.fract]
        push_cast
        ring
      rw [hm, truncQ, if_pos (Int.fract_nonneg t)]
      rw [Int.floor_fract]
      push_cast
      ring

/-! # Claims -/

/-- C3: `smoothPoints` returns inputs with fewer than 3 points
unchanged; for 3 or more points the last output point equals the last
input point exactly; and it is a pure, deterministic function (equal
inputs give equal outputs). -/
theorem smoothPoints_passthrough (pts pts' : List Point) :
    (pts.length < 3 → smoothPoints pts = pts) ∧
    (3 ≤ pts.length → (smoothPoints pts).getLast? = pts.getLast?) ∧
    (pts = pts' → smoothPoints pts = smoothPoints pts') := by
  refine ⟨fun h => ?_, fun h => ?_, fun h => by rw [h]⟩
  · simp [smoothPoints, h]
  · have hne : pts ≠ [] := by
      intro hnil
      rw [hnil] at h
      simp at h
    rw [smoothPoints, if_neg (by omega), List.getLast?_concat,
      getLast?_eq_some_getLastD pts hne]

/-- Witness for C3 at a 2-point and a 3-point polyline. -/
theorem smoothPoints_passthrough_witness :
    ([⟨0, 0⟩, ⟨5, 0⟩] : List Point).length < 3 ∧
    smoothPoints [⟨0, 0⟩, ⟨5, 0⟩] = [⟨0, 0⟩, ⟨5, 0⟩] ∧
    3 ≤ ([⟨0, 0⟩, ⟨5, 0⟩, ⟨10, 0⟩] : List Point).length ∧
    (smoothPoints [⟨0, 0⟩, ⟨5, 0⟩, ⟨10, 0⟩]).getLast? =
      ([⟨0, 0⟩, ⟨5, 0⟩, ⟨10, 0⟩] : List Point).getLast? :=
  ⟨by decide,
   (smoothPoints_passthrough [⟨0, 0⟩, ⟨5, 0⟩] [⟨0, 0⟩, ⟨5, 0⟩]).1 (by decide),
   by decide,
   (smoothPoints_passthrough [⟨0, 0⟩, ⟨5, 0⟩, ⟨10, 0⟩]
     [⟨0, 0⟩, ⟨5, 0⟩, ⟨10, 0⟩]).2.1 (by decide)⟩

/-- C7 (counterexample): on the 3-point input `[(0,0),(10,0),(20,0)]`
the smoother emits 3 — not 5 — sub-points per consecutive input pair,
so the output length is `3·(n−1)+1 = 7`, not `5·(n−1)+1 = 11`. -/
theorem smoothPoints_not_five_per_segment :
    (smoothPoints [⟨0, 0⟩, ⟨10, 0⟩, ⟨20, 0⟩]).length ≠
      5 * (([⟨0, 0⟩, ⟨10, 0⟩, ⟨20, 0⟩] : List Point).length - 1) + 1 ∧
    (smoothPoints [⟨0, 0⟩, ⟨10, 0⟩, ⟨20, 0⟩]).length = 7 := by
  constructor
  · decide
  · decide

/-- C7 (amended): the smoother as invoked by the point pipeline emits
exactly 3 interpolated sub-points per consecutive input pair
(the default `segments = 3`), so for `n ≥ 3` input points the output —
and hence the recomputed `smoothedPoints` after an accepted
`addPoint` — has `3·(n−1)+1` points. -/
theorem smoothPoints_three_per_segment :
    (∀ pts : List Point, 3 ≤ pts.length →
      (smoothPoints pts).length = 3 * (pts.length - 1) + 1) ∧
    (∀ (s : StrokeState) (x y : ℚ), (addPoint s x y).2 = true →
      3 ≤ (addPoint s x y).1.rawPoints.length →
      (addPoint s x y).1.smoothedPoints.length =
        3 * ((addPoint s x y).1.rawPoints.length - 1) + 1) := by
  have hlen : ∀ pts : List Point, 3 ≤ pts.length →
      (smoothPoints pts).length = 3 * (pts.length - 1) + 1 := by
    intro pts h
    rw [smoothPoints, if_neg (by omega), List.length_append]
    simp only [List.length_flatMap, List.length_cons, List.length_nil]
    rw [List.map_congr_left (g := fun _ => 3)
      fun i _ => by simp [Function.comp_def]]
    rw [List.map_const', List.sum_replicate, List.length_range, smul_eq_mul]
    omega
  refine ⟨hlen, fun s x y hacc hlen3 => ?_⟩
  have hspec := ((addPoint_spec s x y).2.2) hacc
  rw [hspec]
  rw [hspec] at hlen3
  exact hlen _ hlen3

/-- Witness for C7's amended claim: a 3-point polyline smooths to 7
points, both directly and through the `addPoint` pipeline. -/
theorem smoothPoints_three_per_segment_witness :
    3 ≤ ([⟨0, 0⟩, ⟨10, 0⟩, ⟨20, 0⟩] : List Point).length ∧
    (smoothPoints [⟨0, 0⟩, ⟨10, 0⟩, ⟨20, 0⟩]).length =
      3 * (([⟨0, 0⟩, ⟨10, 0⟩, ⟨20, 0⟩] : List Point).length - 1) + 1 ∧
    (addPoint ⟨true, [⟨0, 0⟩, ⟨10, 0⟩], []⟩ 20 0).2 = true ∧
    3 ≤ (addPoint ⟨true, [⟨0, 0⟩, ⟨10, 0⟩], []⟩ 20 0).1.rawPoints.length ∧
    (addPoint ⟨true, [⟨0, 0⟩, ⟨10, 0⟩], []⟩ 20 0).1.smoothedPoints.length =
      3 * ((addPoint ⟨true, [⟨0, 0⟩, ⟨10, 0⟩], []⟩
        20 0).1.rawPoints.length - 1) + 1 := by
  have h1 : (addPoint (⟨true, [⟨0, 0⟩, ⟨10, 0⟩], []⟩ : StrokeState)
      20 0).2 = true := by
    norm_num [addPoint, MIN_DISTANCE]
  have h2 : 3 ≤ (addPoint (⟨true, [⟨0, 0⟩, ⟨10, 0⟩], []⟩ : StrokeState)
      20 0).1.rawPoints.length := by
    norm_num [addPoint, MIN_DISTANCE, MAX_POINTS]
  exact ⟨by decide, smoothPoints_three_per_segment.1 _ (by decide), h1, h2,
    smoothPoints_three_per_segment.2 _ 20 0 h1 h2⟩

/-- C10: whenever `addPoint` rejects a sample — `isDrawing` false, or
squared distance to the last accepted point below `3² = 9` — it returns
`false` and leaves the stroke state exactly unchanged; it returns
`true` exactly when the point was appended (after the FIFO trim at the
cap), with `smoothedPoints` recomputed from the new `rawPoints`. -/
theorem addPoint_reject_atomic (s : StrokeState) (x y : ℚ)
    (hinv : s.isDrawing = true → s.rawPoints ≠ []) :
    ((addPoint s x y).2 = false → (addPoint s x y).1 = s) ∧
    ((addPoint s x y).2 = false ↔
      s.isDrawing = false ∨
        ∃ p, s.rawPoints.getLast? = some p ∧
          (x - p.x) * (x - p.x) + (y - p.y) * (y - p.y) <
            MIN_DISTANCE * MIN_DISTANCE) ∧
    ((addPoint s x y).2 = true →
      (addPoint s x y).1.rawPoints =
        (if MAX_POINTS ≤ s.rawPoints.length then s.rawPoints.tail
          else s.rawPoints) ++ [⟨x, y⟩] ∧
      (addPoint s x y).1.smoothedPoints =
        smoothPoints (addPoint s x y).1.rawPoints ∧
      (addPoint s x y).1.isDrawing = s.isDrawing) := by
  obtain ⟨hfalse, hiff, htrue⟩ := addPoint_spec s x y
  refine ⟨fun h => by rw [hfalse h], ?_, fun h => ?_⟩
  · rw [hiff]
    constructor
    · rintro (h | h | h)
      · exact Or.inl h
      · rcases Bool.eq_false_or_eq_true s.isDrawing with ht | hf
        · exact absurd (List.getLast?_eq_none_iff.mp h) (hinv ht)
        · exact Or.inl hf
      · exact Or.inr h
    · rintro (h | h)
      · exact Or.inl h
      · exact Or.inr (Or.inr h)
  · rw [htrue h]
    exact ⟨rfl, rfl, rfl⟩

/-- Witness for C10: on a fresh (not drawing) state the sample is
rejected and the state is untouched. -/
theorem addPoint_reject_atomic_witness :
    (createStrokeState.isDrawing = true → createStrokeState.rawPoints ≠ []) ∧
    ((addPoint createStrokeState 1 2).2 = false →
      (addPoint createStrokeState 1 2).1 = createStrokeState) ∧
    (addPoint createStrokeState 1 2).2 = false :=
  ⟨by decide, (addPoint_reject_atomic createStrokeState 1 2 (by decide)).1,
   by decide⟩

/-- C9: committing in either mode with fewer than 2 points leaves the
committed-stroke collection (`strokeLayer`) unchanged — no child is
added — and only clears the live neon layers / hides the live ribbon
mesh; both commit functions are total (no error is raised). -/
theorem commit_lt_two_points_noop (ctx : RenderContext)
    (pointsQ : List Point) (pointsR : List PointR) (palette : List RGB)
    (bs hard off : ℚ) (bsR offR : ℝ)
    (hq : pointsQ.length < 2) (hr : pointsR.length < 2) :
    (commitNeonStroke ctx pointsQ palette bs hard off).strokeLayer =
      ctx.strokeLayer ∧
    (commitNeonStroke ctx pointsQ palette bs hard off).activeStroke =
      clearStrokeGraphics ctx.activeStroke ∧
    (commitRibbonStroke ctx pointsR palette bsR offR).strokeLayer =
      ctx.strokeLayer ∧
    (commitRibbonStroke ctx pointsR palette bsR offR).activeRibbonVisible =
      false := by
  refine ⟨?_, ?_, ?_, ?_⟩ <;>
    simp [commitNeonStroke, commitRibbonStroke, clearRibbonStroke, hq, hr]

/-- Witness for C9 on a 1-point commit in both modes. -/
theorem commit_lt_two_points_noop_witness :
    ([(⟨0, 0⟩ : Point)].length < 2) ∧ ([(⟨0, 0⟩ : PointR)].length < 2) ∧
    (commitNeonStroke ⟨[], createStrokeGraphics, true⟩ [⟨0, 0⟩] [] 1 0 0).strokeLayer = [] ∧
    (commitRibbonStroke ⟨[], createStrokeGraphics, true⟩ [⟨0, 0⟩] [] 1 0).activeRibbonVisible = false :=
  ⟨by decide, by decide,
   (commit_lt_two_points_noop ⟨[], createStrokeGraphics, true⟩ [⟨0, 0⟩]
     [⟨0, 0⟩] [] 1 0 0 1 0 (by decide) (by decide)).1,
   (commit_lt_two_points_noop ⟨[], createStrokeGraphics, true⟩ [⟨0, 0⟩]
     [⟨0, 0⟩] [] 1 0 0 1 0 (by decide) (by decide)).2.2.2⟩

/-- C4: in every state reachable from a fresh stroke state, consecutive
`rawPoints` are at least `MIN_DISTANCE = 3` apart (stated on squared
Euclidean distance), `rawPoints` never exceeds `MAX_POINTS = 2000`
entries, and an accepted point at the cap drops the oldest point (FIFO)
before appending. -/
theorem rawPoints_decimated_bounded (s : StrokeState) (h : Reachable s) :
    List.Chain' (fun p q : Point =>
      MIN_DISTANCE * MIN_DISTANCE ≤
        (q.x - p.x) * (q.x - p.x) + (q.y - p.y) * (q.y - p.y)) s.rawPoints ∧
    s.rawPoints.length ≤ MAX_POINTS ∧
    (∀ x y : ℚ, (addPoint s x y).2 = true → MAX_POINTS ≤ s.rawPoints.length →
      (addPoint s x y).1.rawPoints = s.rawPoints.tail ++ [⟨x, y⟩]) := by
  obtain ⟨h1, h2, _⟩ := reach_inv s h
  refine ⟨h1, h2, fun x y hacc hcap => ?_⟩
  rw [(addPoint_spec s x y).2.2 hacc]
  simp [if_pos hcap]

/-- Witness for C4 at the fresh state. -/
theorem rawPoints_decimated_bounded_witness :
    List.Chain' (fun p q : Point =>
      MIN_DISTANCE * MIN_DISTANCE ≤
        (q.x - p.x) * (q.x - p.x) + (q.y - p.y) * (q.y - p.y))
      createStrokeState.rawPoints ∧
    createStrokeState.rawPoints.length ≤ MAX_POINTS :=
  ⟨(rawPoints_decimated_bounded createStrokeState Reachable.fresh).1,
   (rawPoints_decimated_bounded createStrokeState Reachable.fresh).2.1⟩

/-- C6: the gradient evaluator is periodic in `t` with period 1 — for
every palette and parameter, `interpolateColor palette t` equals
`interpolateColor palette (t + 1)` (the `((t % 1) + 1) % 1` wrap into
`[0,1)` happens before stop lookup and per-channel interpolation). -/
theorem interpolateColor_periodic (palette : List RGB) (t : ℚ) :
    interpolateColor palette t = interpolateColor palette (t + 1) := by
  have h : wrap01 (t + 1) = wrap01 t := by
    rw [wrap01_eq_fract, wrap01_eq_fract, Int.fract_add_one]
  unfold interpolateColor
  rw [h]

/-! ### Neon chunk geometry lemmas (for C8) -/

lemma chunkTo_eq_chunkFrom_succ (n c : ℕ) : chunkTo n c = chunkFrom n (c + 1) := rfl

lemma colorSteps_pos (n : ℕ) (h2 : 2 ≤ n) : 0 < colorSteps n := by
  rw [colorSteps]
  omega

lemma chunkFrom_mono (n : ℕ) {a b : ℕ} (hab : a ≤ b) :
    chunkFrom n a ≤ chunkFrom n b :=
  Nat.div_le_div_right (Nat.mul_le_mul_right _ hab)

lemma chunkFrom_colorSteps (n : ℕ) (h2 : 2 ≤ n) :
    chunkFrom n (colorSteps n) = n - 1 := by
  rw [chunkFrom]
  exact Nat.mul_div_cancel_left _ (colorSteps_pos n h2)

lemma chunkTo_le (n c : ℕ) (h2 : 2 ≤ n) (hc : c < colorSteps n) :
    chunkTo n c ≤ n - 1 := by
  rw [chunkTo_eq_chunkFrom_succ, ← chunkFrom_colorSteps n h2]
  exact chunkFrom_mono n (by omega)

/-- Every path index lies inside some nonempty (drawn) colour chunk. -/
lemma chunk_cover (n i : ℕ) (h2 : 2 ≤ n) (hi : i < n) :
    ∃ c, c < colorSteps n ∧ chunkFrom n c ≤ i ∧ i ≤ chunkTo n c ∧
      chunkFrom n c < chunkTo n c := by
  have hCS : 0 < colorSteps n := colorSteps_pos n h2
  have hFCS : chunkFrom n (colorSteps n) = n - 1 := chunkFrom_colorSteps n h2
  by_cases hlast : i = n - 1
  · refine ⟨colorSteps n - 1, by omega, ?_, ?_, ?_⟩
    · subst hlast
      rw [← hFCS]
      exact chunkFrom_mono n (by omega)
    · rw [chunkTo_eq_chunkFrom_succ, show colorSteps n - 1 + 1 = colorSteps n
        from by omega, hFCS]
      omega
    · rw [chunkTo_eq_chunkFrom_succ, show colorSteps n - 1 + 1 = colorSteps n
        from by omega, hFCS, chunkFrom]
      rw [Nat.div_lt_iff_lt_mul hCS]
      calc (colorSteps n - 1) * (n - 1) < colorSteps n * (n - 1) :=
            (Nat.mul_lt_mul_right (by omega)).mpr (by omega)
        _ = (n - 1) * colorSteps n := Nat.mul_comm _ _
  · have hilt : i < n - 1 := by omega
    have hP0 : chunkFrom n 0 ≤ i := by simp [chunkFrom]
    have hPc : chunkFrom n (Nat.findGreatest (fun c => chunkFrom n c ≤ i)
        (colorSteps n - 1)) ≤ i :=
      Nat.findGreatest_spec (P := fun c => chunkFrom n c ≤ i) (m := 0)
        (Nat.zero_le _) hP0
    have hcle : Nat.findGreatest (fun c => chunkFrom n c ≤ i)
        (colorSteps n - 1) ≤ colorSteps n - 1 := Nat.findGreatest_le _
    set c := Nat.findGreatest (fun c => chunkFrom n c ≤ i) (colorSteps n - 1)
      with hc
    have hnext : i < chunkFrom n (c + 1) := by
      rcases Nat.lt_or_ge (c + 1) (colorSteps n) with hlt | hge
      · have hng := Nat.findGreatest_is_greatest (P := fun c => chunkFrom n c ≤ i)
          (n := colorSteps n - 1) (k := c + 1) (by omega) (by omega)
        omega
      · have heq : c + 1 = colorSteps n := by omega
        rw [heq, hFCS]
        exact hilt
    exact ⟨c, by omega, hPc, by rw [chunkTo_eq_chunkFrom_succ]; omega,
      by rw [chunkTo_eq_chunkFrom_succ]; omega⟩

lemma getLast?_drop {α : Type*} :
    ∀ (l : List α) (a : ℕ), a < l.length → (l.drop a).getLast? = l.getLast? := by
  intro l
  induction l with
  | nil => intro a ha; simp at ha
  | cons x t ih =>
    intro a ha
    cases a with
    | zero => simp
    | succ b =>
      simp only [List.drop_succ_cons]
      rw [ih b (by simpa using ha)]
      have ht : t ≠ [] := by
        intro h
        rw [h] at ha
        simp at ha
      cases t with
      | nil => exact absurd rfl ht
      | cons y u => simp [List.getLast?_cons_cons]

/-- A chunk that runs to the path's final index ends at the final path
point. -/
lemma pathSlice_getLast? (points : List Point) (a : ℕ)
    (ha : a < points.length) :
    (pathSlice points a (points.length - 1)).getLast? = points.getLast? := by
  rw [pathSlice, show points.length - 1 - a + 1 = points.length - a from by omega,
    ← List.length_drop a points, List.take_length]
  exact getLast?_drop points a ha

lemma drawGradientLine_isStamp (points : List Point) (palette : List RGB)
    (off w : ℚ) :
    ∀ cmd ∈ drawGradientLine points palette off w, cmd.isStamp = false := by
  intro cmd hcmd
  simp only [drawGradientLine] at hcmd
  obtain ⟨c, _, hmem⟩ := List.mem_flatMap.mp hcmd
  by_cases hskip : chunkTo points.length c ≤ chunkFrom points.length c
  · rw [if_pos hskip] at hmem
    simp at hmem
  · rw [if_neg hskip] at hmem
    simp only [List.mem_singleton] at hmem
    subst hmem
    rfl

lemma mem_drawGradientLine (points : List Point) (palette : List RGB)
    (off w : ℚ) (c : ℕ) (hc : c < colorSteps points.length)
    (hne : chunkFrom points.length c < chunkTo points.length c) :
    GfxCmd.strokePath w (interpolateColor palette (chunkT points.length c off))
      (pathSlice points (chunkFrom points.length c) (chunkTo points.length c))
      ∈ drawGradientLine points palette off w := by
  simp only [drawGradientLine]
  refine List.mem_flatMap.mpr ⟨c, List.mem_range.mpr hc, ?_⟩
  rw [if_neg (not_le.mpr hne)]
  exact List.mem_singleton.mpr rfl

lemma drawGradientLine_elim (points : List Point) (palette : List RGB)
    (off w : ℚ) {cmd : GfxCmd} (hcmd : cmd ∈ drawGradientLine points palette off w) :
    ∃ c, c < colorSteps points.length ∧
      chunkFrom points.length c < chunkTo points.length c ∧
      cmd = GfxCmd.strokePath w
        (interpolateColor palette (chunkT points.length c off))
        (pathSlice points (chunkFrom points.length c) (chunkTo points.length c)) := by
  simp only [drawGradientLine] at hcmd
  obtain ⟨c, hcr, hmem⟩ := List.mem_flatMap.mp hcmd
  by_cases hskip : chunkTo points.length c ≤ chunkFrom points.length c
  · rw [if_pos hskip] at hmem
    simp at hmem
  · rw [if_neg hskip] at hmem
    simp only [List.mem_singleton] at hmem
    exact ⟨c, List.mem_range.mp hcr, not_le.mp hskip, hmem⟩

/-- Unfolding of `drawStroke` in the non-degenerate case. -/
lemma drawStroke_eq (sg : StrokeGraphics) (points : List Point)
    (palette : List RGB) (brushSize hardness off : ℚ)
    (h : ¬ points.length < 2) :
    drawStroke sg points palette brushSize hardness off =
      { glow := if 0.02 < (1 - hardness) * 1.6 then
            drawGradientLine points palette off
              (brushSize * (1 + (1 - hardness) * 1.6)) else [],
        edge := if 0.02 < 0.35 * (1 - hardness * 0.6) then
            drawGradientLine points palette off
              (brushSize * (1 + 0.35 * (1 - hardness * 0.6))) else [],
        body := drawGradientLine points palette off brushSize,
        glowAlpha := if 0.02 < (1 - hardness) * 1.6 then
            0.2 * (1 - hardness) else 0,
        edgeAlpha := if 0.02 < 0.35 * (1 - hardness * 0.6) then
            0.45 * (1 - hardness * 0.4) else 0 } := by
  simp [drawStroke, clearStrokeGraphics, h]

/-- C8 (counterexample): on the polyline `[(0,0),(4,0),(8,0)]` with
`brushSize = 20`, `hardness = 0`, the glow and body layers draw
something, yet neither contains a single circle-stamp command — the
code draws round-capped gradient polyline chunks, not per-point circle
stamps (hence also no every-2nd-point stamping). -/
theorem drawStroke_no_circle_stamps :
    (drawStroke createStrokeGraphics [⟨0, 0⟩, ⟨4, 0⟩, ⟨8, 0⟩]
      [⟨255, 0, 0⟩] 20 0 0).glow ≠ [] ∧
    (∀ cmd ∈ (drawStroke createStrokeGraphics [⟨0, 0⟩, ⟨4, 0⟩, ⟨8, 0⟩]
      [⟨255, 0, 0⟩] 20 0 0).glow, cmd.isStamp = false) ∧
    (drawStroke createStrokeGraphics [⟨0, 0⟩, ⟨4, 0⟩, ⟨8, 0⟩]
      [⟨255, 0, 0⟩] 20 0 0).body ≠ [] ∧
    (∀ cmd ∈ (drawStroke createStrokeGraphics [⟨0, 0⟩, ⟨4, 0⟩, ⟨8, 0⟩]
      [⟨255, 0, 0⟩] 20 0 0).body, cmd.isStamp = false) := by
  have h2 : ¬ ([⟨0, 0⟩, ⟨4, 0⟩, ⟨8, 0⟩] : List Point).length < 2 := by
    norm_num
  rw [drawStroke_eq _ _ _ _ _ _ h2]
  have hchunk : chunkFrom ([⟨0, 0⟩, ⟨4, 0⟩, ⟨8, 0⟩] : List Point).length 0 <
      chunkTo ([⟨0, 0⟩, ⟨4, 0⟩, ⟨8, 0⟩] : List Point).length 0 := by
    norm_num [chunkFrom, chunkTo, colorSteps]
  have hcs : 0 < colorSteps ([⟨0, 0⟩, ⟨4, 0⟩, ⟨8, 0⟩] : List Point).length := by
    norm_num [colorSteps]
  refine ⟨?_, ?_, ?_, ?_⟩
  · dsimp only
    rw [if_pos (by norm_num : (0.02 : ℚ) < (1 - 0) * 1.6)]
    exact List.ne_nil_of_mem (mem_drawGradientLine _ _ _ _ 0 hcs hchunk)
  · dsimp only
    rw [if_pos (by norm_num : (0.02 : ℚ) < (1 - 0) * 1.6)]
    exact drawGradientLine_isStamp _ _ _ _
  · dsimp only
    exact List.ne_nil_of_mem (mem_drawGradientLine _ _ _ _ 0 hcs hchunk)
  · dsimp only
    exact drawGradientLine_isStamp _ _ _ _

/-- C8 (amended): for every polyline with at least 2 points,
`drawStroke` renders each layer as round-capped gradient polyline
chunks (one per colour step), never as circle stamps; every body chunk
is coloured by the gradient evaluator at its step fraction; every path
point lies on some drawn body chunk; the final path point is always the
endpoint of a drawn chunk; and the glow layer is skipped (emptied, with
alpha forced to 0) exactly when its width multiplier is ≤ 0.02,
otherwise its surface alpha is `0.2·(1−hardness)`. -/
theorem drawStroke_polyline_chunks (sg : StrokeGraphics)
    (points : List Point) (palette : List RGB)
    (brushSize hardness gradientOffset : ℚ) (h2 : 2 ≤ points.length) :
    (∀ cmd ∈ (drawStroke sg points palette brushSize hardness
        gradientOffset).glow ++
      (drawStroke sg points palette brushSize hardness gradientOffset).edge ++
      (drawStroke sg points palette brushSize hardness gradientOffset).body,
      cmd.isStamp = false) ∧
    (∀ cmd ∈ (drawStroke sg points palette brushSize hardness
        gradientOffset).body,
      ∃ c, c < colorSteps points.length ∧
        chunkFrom points.length c < chunkTo points.length c ∧
        cmd = GfxCmd.strokePath brushSize
          (interpolateColor palette (chunkT points.length c gradientOffset))
          (pathSlice points (chunkFrom points.length c)
            (chunkTo points.length c))) ∧
    (∀ i, i < points.length → ∃ c, c < colorSteps points.length ∧
      chunkFrom points.length c ≤ i ∧ i ≤ chunkTo points.length c ∧
      GfxCmd.strokePath brushSize
        (interpolateColor palette (chunkT points.length c gradientOffset))
        (pathSlice points (chunkFrom points.length c)
          (chunkTo points.length c)) ∈
        (drawStroke sg points palette brushSize hardness
          gradientOffset).body) ∧
    (∃ cmd ∈ (drawStroke sg points palette brushSize hardness
        gradientOffset).body,
      ∃ w col path, cmd = GfxCmd.strokePath w col path ∧
        path.getLast? = points.getLast?) ∧
    ((0.02 < (1 - hardness) * 1.6 →
      (drawStroke sg points palette brushSize hardness
        gradientOffset).glowAlpha = 0.2 * (1 - hardness)) ∧
     (¬ 0.02 < (1 - hardness) * 1.6 →
      (drawStroke sg points palette brushSize hardness
        gradientOffset).glow = [] ∧
      (drawStroke sg points palette brushSize hardness
        gradientOffset).glowAlpha = 0)) := by
  have hn : ¬ points.length < 2 := by omega
  rw [drawStroke_eq sg points palette brushSize hardness gradientOffset hn]
  dsimp only
  refine ⟨?_, ?_, ?_, ?_, ?_, ?_⟩
  · intro cmd hcmd
    rcases List.mem_append.mp hcmd with hge | hb
    · rcases List.mem_append.mp hge with hg | he
      · by_cases hcond : (0.02 : ℚ) < (1 - hardness) * 1.6
        · rw [if_pos hcond] at hg
          exact drawGradientLine_isStamp _ _ _ _ cmd hg
        · rw [if_neg hcond] at hg
          simp at hg
      · by_cases hcond : (0.02 : ℚ) < 0.35 * (1 - hardness * 0.6)
        · rw [if_pos hcond] at he
          exact drawGradientLine_isStamp _ _ _ _ cmd he
        · rw [if_neg hcond] at he
          simp at he
    · exact drawGradientLine_isStamp _ _ _ _ cmd hb
  · intro cmd hcmd
    exact drawGradientLine_elim _ _ _ _ hcmd
  · intro i hi
    obtain ⟨c, hc, hfrom, hto, hne⟩ := chunk_cover points.length i h2 hi
    exact ⟨c, hc, hfrom, hto, mem_drawGradientLine _ _ _ _ c hc hne⟩
  · obtain ⟨c, hc, hfrom, hto, hne⟩ :=
      chunk_cover points.length (points.length - 1) h2 (by omega)
    have htoeq : chunkTo points.length c = points.length - 1 :=
      le_antisymm (chunkTo_le points.length c h2 hc) hto
    refine ⟨GfxCmd.strokePath brushSize
      (interpolateColor palette (chunkT points.length c gradientOffset))
      (pathSlice points (chunkFrom points.length c)
        (chunkTo points.length c)),
      mem_drawGradientLine _ _ _ _ c hc hne, _, _, _, rfl, ?_⟩
    rw [htoeq]
    exact pathSlice_getLast? points _ (by omega)
  · intro hcond
    rw [if_pos hcond]
  · intro hcond
    rw [if_neg hcond, if_neg hcond]
    exact ⟨rfl, rfl⟩

/-- Witness for C8's amended claim on a concrete 3-point stroke. -/
theorem drawStroke_polyline_chunks_witness :
    2 ≤ ([⟨0, 0⟩, ⟨4, 0⟩, ⟨8, 0⟩] : List Point).length ∧
    (∀ cmd ∈ (drawStroke createStrokeGraphics [⟨0, 0⟩, ⟨4, 0⟩, ⟨8, 0⟩]
        [⟨255, 0, 0⟩] 20 0 0).glow ++
      (drawStroke createStrokeGraphics [⟨0, 0⟩, ⟨4, 0⟩, ⟨8, 0⟩]
        [⟨255, 0, 0⟩] 20 0 0).edge ++
      (drawStroke createStrokeGraphics [⟨0, 0⟩, ⟨4, 0⟩, ⟨8, 0⟩]
        [⟨255, 0, 0⟩] 20 0 0).body, cmd.isStamp = false) ∧
    (∃ cmd ∈ (drawStroke createStrokeGraphics [⟨0, 0⟩, ⟨4, 0⟩, ⟨8, 0⟩]
        [⟨255, 0, 0⟩] 20 0 0).body,
      ∃ w col path, cmd = GfxCmd.strokePath w col path ∧
        path.getLast? = ([⟨0, 0⟩, ⟨4, 0⟩, ⟨8, 0⟩] : List Point).getLast?) :=
  ⟨by decide,
   (drawStroke_polyline_chunks createStrokeGraphics [⟨0, 0⟩, ⟨4, 0⟩, ⟨8, 0⟩]
     [⟨255, 0, 0⟩] 20 0 0 (by decide)).1,
   (drawStroke_polyline_chunks createStrokeGraphics [⟨0, 0⟩, ⟨4, 0⟩, ⟨8, 0⟩]
     [⟨255, 0, 0⟩] 20 0 0 (by decide)).2.2.2.1⟩

/-! ### Generic indexing lemmas for constant-width `flatMap` buffers -/

lemma getD_flatMap_range {α : Type*} (f : ℕ → List α) (k : ℕ)
    (hlen : ∀ j, (f j).length = k) (d : α) :
    ∀ n i r, i < n → r < k →
      ((List.range n).flatMap f).getD (k * i + r) d = (f i).getD r d := by
  intro n
  induction n with
  | zero => intro i r hi _; exact absurd hi (Nat.not_lt_zero _)
  | succ m ih =>
    intro i r hi hr
    rw [List.range_succ, List.flatMap_append]
    have hlenA : ((List.range m).flatMap f).length = k * m :=
      length_flatMap_range_const f k m fun j _ => hlen j
    rcases Nat.lt_or_ge i m with him | him
    · rw [List.getD_append _ _ _ _ (by
        rw [hlenA]
        calc k * i + r < k * i + k := by omega
          _ = k * (i + 1) := by ring
          _ ≤ k * m := Nat.mul_le_mul_left _ (by omega))]
      exact ih i r him hr
    · have hieq : i = m := by omega
      subst hieq
      rw [List.getD_append_right _ _ _ _ (by rw [hlenA]; omega), hlenA]
      simp only [Nat.add_sub_cancel_left, List.flatMap_cons, List.flatMap_nil,
        List.append_nil]

lemma getD_pair_flatMap {α : Type*} (d : α) :
    ∀ (l : List α) (i : ℕ), i < l.length →
      ((l.flatMap fun a => [a, a]).getD (2 * i) d = l.getD i d) := by
  intro l
  induction l with
  | nil => intro i hi; simp at hi
  | cons a t ih =>
    intro i hi
    cases i with
    | zero => simp
    | succ b =>
      rw [show 2 * (b + 1) = 2 * b + 2 from by ring]
      simp only [List.flatMap_cons]
      rw [show ([a, a] : List α) ++ t.flatMap (fun a => [a, a]) =
        a :: a :: t.flatMap (fun a => [a, a]) from rfl]
      simp only [List.getD_cons_succ]
      exact ih b (by simpa using hi)

lemma length_pair_flatMap {α : Type*} (l : List α) :
    (l.flatMap fun a => [a, a]).length = 2 * l.length := by
  induction l with
  | nil => simp
  | cons a t ih => simp [ih]; ring

lemma IsPrefix.getD_eq {α : Type*} {l₁ l₂ : List α} (h : l₁ <+: l₂) (d : α)
    (i : ℕ) (hi : i < l₁.length) : l₂.getD i d = l₁.getD i d := by
  obtain ⟨t, rfl⟩ := h
  exact List.getD_append _ _ _ _ hi

/-! ### Unwrap lemmas (for C5) -/

lemma unwrapStep_abs_le (prev a : ℝ) :
    |unwrapStep prev a - prev| ≤ Real.pi := by
  have hpi := Real.pi_pos
  rw [unwrapStep]
  split_ifs with h1 h2
  · set c := ⌈(a - prev - Real.pi) / (2 * Real.pi)⌉ with hc
    have hup : (a - prev - Real.pi) / (2 * Real.pi) ≤ (c : ℝ) := Int.le_ceil _
    have hdown : (c : ℝ) < (a - prev - Real.pi) / (2 * Real.pi) + 1 :=
      Int.ceil_lt_add_one _
    rw [div_le_iff₀ (by linarith)] at hup
    rw [← sub_lt_iff_lt_add, lt_div_iff₀ (by linarith)] at hdown
    rw [abs_le]
    constructor <;> nlinarith
  · set c := ⌈(-Real.pi - (a - prev)) / (2 * Real.pi)⌉ with hc
    have hup : (-Real.pi - (a - prev)) / (2 * Real.pi) ≤ (c : ℝ) := Int.le_ceil _
    have hdown : (c : ℝ) < (-Real.pi - (a - prev)) / (2 * Real.pi) + 1 :=
      Int.ceil_lt_add_one _
    rw [div_le_iff₀ (by linarith)] at hup
    rw [← sub_lt_iff_lt_add, lt_div_iff₀ (by linarith)] at hdown
    rw [abs_le]
    constructor <;> nlinarith
  · rw [abs_le]
    constructor <;> linarith

lemma unwrapStep_sub_int (prev a : ℝ) :
    ∃ k : ℤ, unwrapStep prev a = a + 2 * Real.pi * k := by
  rw [unwrapStep]
  split_ifs with h1 h2
  · exact ⟨-⌈(a - prev - Real.pi) / (2 * Real.pi)⌉, by push_cast; ring⟩
  · exact ⟨⌈(-Real.pi - (a - prev)) / (2 * Real.pi)⌉, by ring⟩
  · exact ⟨0, by norm_num⟩

lemma unwrapFrom_length : ∀ (l : List ℝ) (prev : ℝ),
    (unwrapFrom prev l).length = l.length := by
  intro l
  induction l with
  | nil => intro prev; rfl
  | cons a t ih => intro prev; simp [unwrapFrom, ih]

lemma unwrapAngles_length (l : List ℝ) :
    (unwrapAngles l).length = l.length := by
  cases l with
  | nil => rfl
  | cons a t => simp [unwrapAngles, unwrapFrom_length]

lemma chain'_unwrapFrom : ∀ (l : List ℝ) (prev : ℝ),
    List.Chain' (fun p q => |q - p| ≤ Real.pi) (prev :: unwrapFrom prev l) := by
  intro l
  induction l with
  | nil => intro prev; exact List.chain'_singleton _
  | cons a t ih =>
    intro prev
    show List.Chain' _ (prev :: unwrapStep prev a :: unwrapFrom (unwrapStep prev a) t)
    exact List.chain'_cons.mpr ⟨unwrapStep_abs_le prev a, ih (unwrapStep prev a)⟩

lemma chain'_unwrapAngles (l : List ℝ) :
    List.Chain' (fun p q => |q - p| ≤ Real.pi) (unwrapAngles l) := by
  cases l with
  | nil => exact List.chain'_nil
  | cons a t => exact chain'_unwrapFrom t a

lemma unwrapFrom_getD_sub : ∀ (l : List ℝ) (prev : ℝ) (i : ℕ), i < l.length →
    ∃ k : ℤ, (unwrapFrom prev l).getD i 0 = l.getD i 0 + 2 * Real.pi * k := by
  intro l
  induction l with
  | nil => intro prev i hi; simp at hi
  | cons a t ih =>
    intro prev i hi
    cases i with
    | zero =>
      show ∃ k : ℤ, (unwrapStep prev a :: _).getD 0 0 = _
      simpa using unwrapStep_sub_int prev a
    | succ b =>
      show ∃ k : ℤ, (unwrapStep prev a :: unwrapFrom (unwrapStep prev a) t).getD
        (b + 1) 0 = _
      simp only [List.getD_cons_succ]
      exact ih (unwrapStep prev a) b (by simpa using hi)

lemma unwrapAngles_getD_sub (l : List ℝ) (i : ℕ) (hi : i < l.length) :
    ∃ k : ℤ, (unwrapAngles l).getD i 0 = l.getD i 0 + 2 * Real.pi * k := by
  cases l with
  | nil => simp at hi
  | cons a t =>
    cases i with
    | zero => exact ⟨0, by push_cast; simp [unwrapAngles]⟩
    | succ b =>
      show ∃ k : ℤ, (a :: unwrapFrom a t).getD (b + 1) 0 = _
      simp only [List.getD_cons_succ]
      exact unwrapFrom_getD_sub t a b (by simpa using hi)

lemma chain'_getD {R : ℝ → ℝ → Prop} {l : List ℝ} (h : List.Chain' R l)
    (i : ℕ) (hi : i + 1 < l.length) : R (l.getD i 0) (l.getD (i + 1) 0) := by
  have hg := List.chain'_iff_get.mp h i (by omega)
  rw [List.getD_eq_getElem _ _ (by omega), List.getD_eq_getElem _ _ hi]
  simpa [List.get_eq_getElem] using hg

/-! ### Segment-normal norm bounds (for C1) -/

lemma segDir_norm_le (p q : PointR) :
    (mkSegDir p q).nx ^ 2 + (mkSegDir p q).ny ^ 2 ≤ 1 := by
  rw [mkSegDir]
  dsimp only
  set dx := q.x - p.x with hdx
  set dy := q.y - p.y with hdy
  by_cases h : Real.sqrt (dx * dx + dy * dy) = 0
  · rw [if_pos h]
    have hle : dx * dx + dy * dy ≤ 0 := Real.sqrt_eq_zero'.mp h
    have hdx0 : dx = 0 := by nlinarith [sq_nonneg dx, sq_nonneg dy]
    have hdy0 : dy = 0 := by nlinarith [sq_nonneg dx, sq_nonneg dy]
    rw [hdx0, hdy0]
    norm_num
  · rw [if_neg h]
    have hnn : (0 : ℝ) ≤ dx * dx + dy * dy := by
      nlinarith [mul_self_nonneg dx, mul_self_nonneg dy]
    have hsq : Real.sqrt (dx * dx + dy * dy) * Real.sqrt (dx * dx + dy * dy) =
        dx * dx + dy * dy := Real.mul_self_sqrt hnn
    have hargpos : 0 < dx * dx + dy * dy := by
      by_contra hc
      push_neg at hc
      exact h (Real.sqrt_eq_zero'.mpr hc)
    have hne : Real.sqrt (dx * dx + dy * dy) ≠ 0 := h
    have key : (-(dy / Real.sqrt (dx * dx + dy * dy))) ^ 2 +
        (dx / Real.sqrt (dx * dx + dy * dy)) ^ 2 =
        (dx * dx + dy * dy) / (Real.sqrt (dx * dx + dy * dy) *
          Real.sqrt (dx * dx + dy * dy)) := by
      field_simp
      ring
    rw [key, hsq, div_self (ne_of_gt hargpos)]

lemma segDirs_getD_norm_le (points : List PointR) (j : ℕ) :
    ((segDirs points).getD j default).nx ^ 2 +
      ((segDirs points).getD j default).ny ^ 2 ≤ 1 := by
  by_cases hj : j < points.length - 1
  · have hel : (segDirs points).getD j default =
        mkSegDir (points.getD j default) (points.getD (j + 1) default) := by
      simp [segDirs, List.getD_eq_getElem?_getD, List.getElem?_map,
        List.getElem?_range, hj]
    rw [hel]
    exact segDir_norm_le _ _
  · rw [List.getD_eq_default _ _ (by simp [segDirs]; omega)]
    show (0 : ℝ) ^ 2 + (0 : ℝ) ^ 2 ≤ 1
    norm_num

lemma prefix_getD_eq {α : Type*} {l₁ l₂ : List α} (h : l₁ <+: l₂) (d : α)
    (i : ℕ) (hi : i < l₁.length) : l₂.getD i d = l₁.getD i d := by
  obtain ⟨t, rfl⟩ := h
  exact List.getD_append _ _ _ _ hi

/-! ### Builder-state lemmas for the taper caps (C1, C2, C5) -/

lemma capStep_pos_extends (o : PointR) (tg : ℝ × ℝ) (ta hw cu dir : ℝ)
    (ts : ℕ) (acc : CapAcc) (k : ℕ) :
    acc.pos <+: (capStep o tg ta hw cu dir ts acc k).pos := by
  unfold capStep
  dsimp only
  split <;> exact List.prefix_append _ _

lemma capStep_ta_extends (o : PointR) (tg : ℝ × ℝ) (ta hw cu dir : ℝ)
    (ts : ℕ) (acc : CapAcc) (k : ℕ) :
    acc.ta <+: (capStep o tg ta hw cu dir ts acc k).ta := by
  unfold capStep
  dsimp only
  split <;> exact List.prefix_append _ _

lemma capStep_vi_le (o : PointR) (tg : ℝ × ℝ) (ta hw cu dir : ℝ)
    (ts : ℕ) (acc : CapAcc) (k : ℕ) :
    acc.vi ≤ (capStep o tg ta hw cu dir ts acc k).vi := by
  unfold capStep
  dsimp only
  split <;> dsimp only <;> omega

lemma foldl_capStep_pos_extends (o : PointR) (tg : ℝ × ℝ)
    (ta hw cu dir : ℝ) (ts : ℕ) :
    ∀ (l : List ℕ) (acc : CapAcc),
      acc.pos <+: (l.foldl (capStep o tg ta hw cu dir ts) acc).pos := by
  intro l
  induction l with
  | nil => intro acc; exact List.prefix_refl _
  | cons k t ih =>
    intro acc
    exact (capStep_pos_extends o tg ta hw cu dir ts acc k).trans (ih _)

lemma foldl_capStep_ta_extends (o : PointR) (tg : ℝ × ℝ)
    (ta hw cu dir : ℝ) (ts : ℕ) :
    ∀ (l : List ℕ) (acc : CapAcc),
      acc.ta <+: (l.foldl (capStep o tg ta hw cu dir ts) acc).ta := by
  intro l
  induction l with
  | nil => intro acc; exact List.prefix_refl _
  | cons k t ih =>
    intro acc
    exact (capStep_ta_extends o tg ta hw cu dir ts acc k).trans (ih _)

lemma addTaperCap_pos_extends (o : PointR) (tg : ℝ × ℝ) (ta hw cu dir : ℝ)
    (ts pl pr : ℕ) (acc : CapAcc) :
    acc.pos <+: (addTaperCap o tg ta hw cu dir ts pl pr acc).pos := by
  unfold addTaperCap
  exact foldl_capStep_pos_extends o tg ta hw cu dir ts (List.range' 1 ts)
    { acc with pL := pl, pR := pr }

lemma addTaperCap_ta_extends (o : PointR) (tg : ℝ × ℝ) (ta hw cu dir : ℝ)
    (ts pl pr : ℕ) (acc : CapAcc) :
    acc.ta <+: (addTaperCap o tg ta hw cu dir ts pl pr acc).ta := by
  unfold addTaperCap
  exact foldl_capStep_ta_extends o tg ta hw cu dir ts (List.range' 1 ts)
    { acc with pL := pl, pR := pr }

/-- One cap iteration preserves the builder invariant: the flat position
buffer holds two floats per vertex, the stitch indices point below the
vertex counter, and every emitted triangle index is in range. -/
lemma capStep_inv (o : PointR) (tg : ℝ × ℝ) (ta hw cu dir : ℝ)
    (ts : ℕ) (acc : CapAcc) (k : ℕ)
    (h1 : acc.pos.length = 2 * acc.vi) (h2 : acc.pL < acc.vi)
    (h3 : acc.pR < acc.vi) (h4 : ∀ j ∈ acc.idx, j < acc.vi) :
    (capStep o tg ta hw cu dir ts acc k).pos.length =
        2 * (capStep o tg ta hw cu dir ts acc k).vi ∧
      (capStep o tg ta hw cu dir ts acc k).pL <
        (capStep o tg ta hw cu dir ts acc k).vi ∧
      (capStep o tg ta hw cu dir ts acc k).pR <
        (capStep o tg ta hw cu dir ts acc k).vi ∧
      ∀ j ∈ (capStep o tg ta hw cu dir ts acc k).idx,
        j < (capStep o tg ta hw cu dir ts acc k).vi := by
  unfold capStep
  dsimp only
  split
  · refine ⟨?_, by dsimp only; omega, by dsimp only; omega, ?_⟩
    · dsimp only
      simp only [List.length_append, List.length_cons, List.length_nil, h1]
      omega
    · dsimp only
      intro j hj
      rcases List.mem_append.mp hj with hold | hnew
      · exact lt_trans (h4 j hold) (by omega)
      · simp only [List.mem_cons, List.not_mem_nil, or_false] at hnew
        rcases hnew with rfl | rfl | rfl | rfl | rfl | rfl <;> omega
  · refine ⟨?_, by dsimp only; omega, by dsimp only; omega, ?_⟩
    · dsimp only
      simp only [List.length_append, List.length_cons, List.length_nil, h1]
      omega
    · dsimp only
      intro j hj
      rcases List.mem_append.mp hj with hold | hnew
      · exact lt_trans (h4 j hold) (by omega)
      · simp only [List.mem_cons, List.not_mem_nil, or_false] at hnew
        rcases hnew with rfl | rfl | rfl <;> omega

lemma foldl_capStep_inv (o : PointR) (tg : ℝ × ℝ) (ta hw cu dir : ℝ)
    (ts : ℕ) :
    ∀ (l : List ℕ) (acc : CapAcc),
      acc.pos.length = 2 * acc.vi → acc.pL < acc.vi → acc.pR < acc.vi →
      (∀ j ∈ acc.idx, j < acc.vi) →
      (l.foldl (capStep o tg ta hw cu dir ts) acc).pos.length =
          2 * (l.foldl (capStep o tg ta hw cu dir ts) acc).vi ∧
        (∀ j ∈ (l.foldl (capStep o tg ta hw cu dir ts) acc).idx,
          j < (l.foldl (capStep o tg ta hw cu dir ts) acc).vi) ∧
        acc.vi ≤ (l.foldl (capStep o tg ta hw cu dir ts) acc).vi := by
  intro l
  induction l with
  | nil => intro acc a b c d; exact ⟨a, d, le_refl _⟩
  | cons k t ih =>
    intro acc a b c d
    simp only [List.foldl_cons]
    obtain ⟨a', b', c', d'⟩ := capStep_inv o tg ta hw cu dir ts acc k a b c d
    obtain ⟨r1, r2, r3⟩ := ih (capStep o tg ta hw cu dir ts acc k) a' b' c' d'
    exact ⟨r1, r2, le_trans (capStep_vi_le o tg ta hw cu dir ts acc k) r3⟩

/-- The full cap run preserves the invariant, provided the stitch
indices handed in point at existing vertices. -/
lemma addTaperCap_inv (o : PointR) (tg : ℝ × ℝ) (ta hw cu dir : ℝ)
    (ts pl pr : ℕ) (acc : CapAcc)
    (h1 : acc.pos.length = 2 * acc.vi) (hpl : pl < acc.vi)
    (hpr : pr < acc.vi) (h4 : ∀ j ∈ acc.idx, j < acc.vi) :
    (addTaperCap o tg ta hw cu dir ts pl pr acc).pos.length =
        2 * (addTaperCap o tg ta hw cu dir ts pl pr acc).vi ∧
      (∀ j ∈ (addTaperCap o tg ta hw cu dir ts pl pr acc).idx,
        j < (addTaperCap o tg ta hw cu dir ts pl pr acc).vi) ∧
      acc.vi ≤ (addTaperCap o tg ta hw cu dir ts pl pr acc).vi := by
  unfold addTaperCap
  exact foldl_capStep_inv o tg ta hw cu dir ts (List.range' 1 ts)
    { acc with pL := pl, pR := pr } h1 hpl hpr h4

/-- Index validity for a strip closed by two taper caps. -/
lemma double_cap_index_bound (o1 : PointR) (t1 : ℝ × ℝ)
    (a1 hw1 cu1 dir1 : ℝ) (ts1 pl1 pr1 : ℕ) (o2 : PointR) (t2 : ℝ × ℝ)
    (a2 hw2 cu2 dir2 : ℝ) (ts2 pl2 pr2 : ℕ) (S : CapAcc)
    (h1 : S.pos.length = 2 * S.vi) (hpl1 : pl1 < S.vi) (hpr1 : pr1 < S.vi)
    (hidx : ∀ j ∈ S.idx, j < S.vi) (hpl2 : pl2 < S.vi) (hpr2 : pr2 < S.vi) :
    ∀ j ∈ (addTaperCap o2 t2 a2 hw2 cu2 dir2 ts2 pl2 pr2
        (addTaperCap o1 t1 a1 hw1 cu1 dir1 ts1 pl1 pr1 S)).idx.map
        (· % 65536),
      j < (addTaperCap o2 t2 a2 hw2 cu2 dir2 ts2 pl2 pr2
        (addTaperCap o1 t1 a1 hw1 cu1 dir1 ts1 pl1 pr1 S)).pos.length / 2 := by
  intro j hj
  obtain ⟨j0, hj0, rfl⟩ := List.mem_map.mp hj
  obtain ⟨hA1, hAidx, hAvi⟩ :=
    addTaperCap_inv o1 t1 a1 hw1 cu1 dir1 ts1 pl1 pr1 S h1 hpl1 hpr1 hidx
  obtain ⟨hB1, hBidx, _⟩ :=
    addTaperCap_inv o2 t2 a2 hw2 cu2 dir2 ts2 pl2 pr2 _ hA1
      (lt_of_lt_of_le hpl2 hAvi) (lt_of_lt_of_le hpr2 hAvi) hAidx
  have hj0lt := hBidx j0 hj0
  have hmod : j0 % 65536 ≤ j0 := Nat.mod_le _ _
  rw [hB1]
  omega

/-! ### Strip buffer lemmas -/

lemma stripPositions_length (points : List PointR) (hw : ℝ) :
    (stripPositions points hw).length = 4 * points.length := by
  rw [stripPositions]
  exact length_flatMap_range_const _ 4 _ fun i _ => rfl

lemma stripIndices_lt (n : ℕ) : ∀ j ∈ stripIndices n, j < 2 * n := by
  intro j hj
  rw [stripIndices] at hj
  obtain ⟨i, hir, hmem⟩ := List.mem_flatMap.mp hj
  have hi : i < n := List.mem_range.mp hir
  by_cases h0 : i = 0
  · rw [if_pos h0] at hmem
    simp at hmem
  · rw [if_neg h0] at hmem
    simp only [List.mem_cons, List.not_mem_nil, or_false] at hmem
    rcases hmem with rfl | rfl | rfl | rfl | rfl | rfl <;> omega

lemma rawAngles_length (points : List PointR) :
    (rawAngles points).length = points.length := by
  rw [rawAngles, List.length_map, tangents, List.length_map, List.length_range]

lemma uAng_length (points : List PointR) :
    (unwrapAngles (rawAngles points)).length = points.length := by
  rw [unwrapAngles_length, rawAngles_length]

lemma stripAngles_length (points : List PointR) :
    (stripAngles points).length = 2 * points.length := by
  rw [stripAngles, length_pair_flatMap, uAng_length]

/-! ### Projection lemmas for `buildRibbonGeometry` -/

lemma stripPositions_prefix_build (points : List PointR) (hw : ℝ)
    (h : ¬ points.length < 2) :
    stripPositions points hw <+: (buildRibbonGeometry points hw).positions := by
  unfold buildRibbonGeometry
  dsimp only
  rw [if_neg h]
  dsimp only
  exact (addTaperCap_pos_extends _ _ _ _ _ _ _ _ _
    { pos := stripPositions points hw, uv := stripUvs points,
      ta := stripAngles points, idx := stripIndices points.length,
      vi := 2 * points.length, pL := 0, pR := 1 }).trans
    (addTaperCap_pos_extends _ _ _ _ _ _ _ _ _ _)

lemma stripAngles_prefix_build (points : List PointR) (hw : ℝ)
    (h : ¬ points.length < 2) :
    stripAngles points <+: (buildRibbonGeometry points hw).tangentAngles := by
  unfold buildRibbonGeometry
  dsimp only
  rw [if_neg h]
  dsimp only
  exact (addTaperCap_ta_extends _ _ _ _ _ _ _ _ _
    { pos := stripPositions points hw, uv := stripUvs points,
      ta := stripAngles points, idx := stripIndices points.length,
      vi := 2 * points.length, pL := 0, pR := 1 }).trans
    (addTaperCap_ta_extends _ _ _ _ _ _ _ _ _ _)

/-- The squared miter offset at an interior point is bounded by
`(2·halfWidth)²`: the fallback branch uses a (sub-)unit normal, and the
clamped branch scales a unit bisector by at most `MITER_LIMIT = 2`. -/
lemma stripOffset_norm_sq_le (points : List PointR) (hw : ℝ) (hhw : 0 ≤ hw)
    (i : ℕ) (h0 : 0 < i) (hn : i + 1 < points.length) :
    (stripOffset points hw i).1 ^ 2 + (stripOffset points hw i).2 ^ 2 ≤
      (2 * hw) ^ 2 := by
  have hi0 : ¬ i = 0 := by omega
  have hin : ¬ i = points.length - 1 := by omega
  rw [stripOffset]
  rw [if_neg hi0, if_neg hin]
  set s1 := (segDirs points).getD (i - 1) default with hs1
  set s2 := (segDirs points).getD i default with hs2
  dsimp only
  by_cases hml : Real.sqrt ((s1.nx + s2.nx) * (s1.nx + s2.nx) +
      (s1.ny + s2.ny) * (s1.ny + s2.ny)) < 1e-6
  · rw [if_pos hml]
    have hb := segDirs_getD_norm_le points (i - 1)
    rw [← hs1] at hb
    dsimp only
    nlinarith [sq_nonneg hw, sq_nonneg s1.nx, sq_nonneg s1.ny]
  · rw [if_neg hml]
    dsimp only
    set mx := s1.nx + s2.nx with hmx
    set my := s1.ny + s2.ny with hmy
    have harg : (0 : ℝ) ≤ mx * mx + my * my := by
      nlinarith [mul_self_nonneg mx, mul_self_nonneg my]
    set ml := Real.sqrt (mx * mx + my * my) with hmldef
    have hmlpos : 0 < ml :=
      lt_of_lt_of_le (by norm_num) (not_lt.mp hml)
    have hmlsq : ml * ml = mx * mx + my * my := Real.mul_self_sqrt harg
    have hmaxpos : (0 : ℝ) <
        max (mx / ml * s1.nx + my / ml * s1.ny) 0.01 :=
      lt_of_lt_of_le (by norm_num) (le_max_right _ _)
    set scale := min (1 / max (mx / ml * s1.nx + my / ml * s1.ny) 0.01)
      MITER_LIMIT with hscaledef
    have hscale0 : 0 < scale :=
      lt_min (by positivity) (by norm_num [MITER_LIMIT])
    have hscale2 : scale ≤ 2 :=
      le_trans (min_le_right _ _) (by norm_num [MITER_LIMIT])
    have hunit : (mx / ml) ^ 2 + (my / ml) ^ 2 = 1 := by
      field_simp
      nlinarith [hmlsq]
    calc (mx / ml * hw * scale) ^ 2 + (my / ml * hw * scale) ^ 2
        = (hw * scale) ^ 2 * ((mx / ml) ^ 2 + (my / ml) ^ 2) := by ring
      _ = (hw * scale) ^ 2 := by rw [hunit, mul_one]
      _ ≤ (2 * hw) ^ 2 := by
          have hkey : 0 ≤ hw * hw * ((2 - scale) * (2 + scale)) :=
            mul_nonneg (mul_nonneg hhw hhw)
              (mul_nonneg (by linarith) (by linarith))
          nlinarith [hkey]

/-- The strip's flat position buffer holds, at slots `4i .. 4i+3`, the
left and right vertex of centreline point `i`: the point offset by
`± stripOffset`. -/
lemma build_strip_vertex (points : List PointR) (hw : ℝ)
    (h2 : ¬ points.length < 2) (i : ℕ) (hi : i < points.length)
    (r : ℕ) (hr : r < 4) :
    (buildRibbonGeometry points hw).positions.getD (4 * i + r) 0 =
      [(points.getD i default).x + (stripOffset points hw i).1,
       (points.getD i default).y + (stripOffset points hw i).2,
       (points.getD i default).x - (stripOffset points hw i).1,
       (points.getD i default).y - (stripOffset points hw i).2].getD r 0 := by
  rw [prefix_getD_eq (stripPositions_prefix_build points hw h2) 0 _
    (by rw [stripPositions_length]; omega)]
  rw [stripPositions]
  rw [getD_flatMap_range
    (fun i =>
      let p := points.getD i default
      let o := stripOffset points hw i
      [p.x + o.1, p.y + o.2, p.x - o.1, p.y - o.2])
    4 (fun j => rfl) 0 points.length i r hi hr]

/-- C1: at every interior (miter-join) centreline point the applied
offset has magnitude at most `2·halfWidth` — the denominator clamp
(`max(dot, 0.01)`), the scale clamp (`MITER_LIMIT = 2`) and the ≈180°
fallback to the incoming normal keep the computation finite — and the
built geometry places the strip vertices at exactly `point ± offset`. -/
theorem miter_offset_bounded (points : List PointR) (hw : ℝ) (hhw : 0 ≤ hw)
    (i : ℕ) (h0 : 0 < i) (hn : i + 1 < points.length) :
    Real.sqrt ((stripOffset points hw i).1 ^ 2 +
        (stripOffset points hw i).2 ^ 2) ≤ 2 * hw ∧
    |(stripOffset points hw i).1| ≤ 2 * hw ∧
    |(stripOffset points hw i).2| ≤ 2 * hw ∧
    (buildRibbonGeometry points hw).positions.getD (4 * i) 0 =
      (points.getD i default).x + (stripOffset points hw i).1 ∧
    (buildRibbonGeometry points hw).positions.getD (4 * i + 1) 0 =
      (points.getD i default).y + (stripOffset points hw i).2 ∧
    (buildRibbonGeometry points hw).positions.getD (4 * i + 2) 0 =
      (points.getD i default).x - (stripOffset points hw i).1 ∧
    (buildRibbonGeometry points hw).positions.getD (4 * i + 3) 0 =
      (points.getD i default).y - (stripOffset points hw i).2 := by
  have h2 : ¬ points.length < 2 := by omega
  have hsq := stripOffset_norm_sq_le points hw hhw i h0 hn
  refine ⟨?_, ?_, ?_, ?_, ?_, ?_, ?_⟩
  · calc Real.sqrt ((stripOffset points hw i).1 ^ 2 +
          (stripOffset points hw i).2 ^ 2)
        ≤ Real.sqrt ((2 * hw) ^ 2) := Real.sqrt_le_sqrt hsq
      _ = 2 * hw := Real.sqrt_sq (by linarith)
  · rw [abs_le]
    constructor <;> nlinarith [sq_nonneg (stripOffset points hw i).2]
  · rw [abs_le]
    constructor <;> nlinarith [sq_nonneg (stripOffset points hw i).1]
  · simpa using build_strip_vertex points hw h2 i (by omega) 0 (by norm_num)
  · simpa using build_strip_vertex points hw h2 i (by omega) 1 (by norm_num)
  · simpa using build_strip_vertex points hw h2 i (by omega) 2 (by norm_num)
  · simpa using build_strip_vertex points hw h2 i (by omega) 3 (by norm_num)

/-- Witness for C1 on a concrete 3-point polyline with `halfWidth = 1`. -/
theorem miter_offset_bounded_witness :
    (0 : ℝ) ≤ 1 ∧ 0 < 1 ∧
    1 + 1 < ([⟨0, 0⟩, ⟨1, 0⟩, ⟨2, 0⟩] : List PointR).length ∧
    Real.sqrt ((stripOffset [⟨0, 0⟩, ⟨1, 0⟩, ⟨2, 0⟩] 1 1).1 ^ 2 +
      (stripOffset [⟨0, 0⟩, ⟨1, 0⟩, ⟨2, 0⟩] 1 1).2 ^ 2) ≤ 2 * 1 :=
  ⟨by norm_num, by norm_num, by norm_num,
   (miter_offset_bounded [⟨0, 0⟩, ⟨1, 0⟩, ⟨2, 0⟩] 1 (by norm_num) 1
     (by norm_num) (by norm_num)).1⟩

/-- C2: every entry of the index list returned by `buildRibbonGeometry`
is strictly below the vertex count (positions length / 2), for every
polyline and halfWidth; degenerate input of fewer than 2 points yields
the `EMPTY_GEO` placeholder (one triangle, 3 vertices, indices
`[0,1,2]`) instead of failing. -/
theorem ribbon_indices_valid (points : List PointR) (hw : ℝ) :
    (∀ j ∈ (buildRibbonGeometry points hw).indices,
      j < (buildRibbonGeometry points hw).positions.length / 2) ∧
    (points.length < 2 → buildRibbonGeometry points hw = EMPTY_GEO) := by
  by_cases h : points.length < 2
  · have hE : buildRibbonGeometry points hw = EMPTY_GEO := by
      unfold buildRibbonGeometry
      dsimp only
      rw [if_pos h]
    refine ⟨?_, fun _ => hE⟩
    rw [hE]
    intro j hj
    simp only [EMPTY_GEO, List.mem_cons, List.not_mem_nil, or_false] at hj
    rcases hj with rfl | rfl | rfl <;> norm_num [EMPTY_GEO]
  · refine ⟨?_, fun hc => absurd hc h⟩
    unfold buildRibbonGeometry
    dsimp only
    rw [if_neg h]
    dsimp only
    apply double_cap_index_bound
    · rw [stripPositions_length]
      ring
    · dsimp only
      omega
    · dsimp only
      omega
    · exact stripIndices_lt points.length
    · dsimp only
      omega
    · dsimp only
      omega

/-- Witness for C2's degenerate-input branch at the empty polyline. -/
theorem ribbon_indices_valid_witness :
    ([] : List PointR).length < 2 ∧
    buildRibbonGeometry ([] : List PointR) 1 = EMPTY_GEO :=
  ⟨by decide, (ribbon_indices_valid ([] : List PointR) 1).2 (by decide)⟩

/-- C5: in the tangent-angle buffer produced by `buildRibbonGeometry`,
the unwrapped angles of consecutive centreline points (strip slots `2i`
and `2(i+1)`) differ by at most `π` in absolute value, the unwrap
having added or subtracted whole multiples of `2π` to each raw
`atan2` angle. -/
theorem tangentAngles_unwrapped (points : List PointR) (hw : ℝ) (i : ℕ)
    (hi : i + 1 < points.length) :
    |(buildRibbonGeometry points hw).tangentAngles.getD (2 * (i + 1)) 0 -
      (buildRibbonGeometry points hw).tangentAngles.getD (2 * i) 0| ≤
      Real.pi ∧
    (∀ j, j < points.length → ∃ k : ℤ,
      (unwrapAngles (rawAngles points)).getD j 0 =
        (rawAngles points).getD j 0 + 2 * Real.pi * k) := by
  have h2 : ¬ points.length < 2 := by omega
  have hpre := stripAngles_prefix_build points hw h2
  constructor
  · rw [prefix_getD_eq hpre 0 _ (by rw [stripAngles_length]; omega),
      prefix_getD_eq hpre 0 _ (by rw [stripAngles_length]; omega)]
    rw [stripAngles,
      getD_pair_flatMap 0 _ (i + 1) (by rw [uAng_length]; omega),
      getD_pair_flatMap 0 _ i (by rw [uAng_length]; omega)]
    exact chain'_getD (chain'_unwrapAngles _) i (by rw [uAng_length]; omega)
  · intro j hj
    exact unwrapAngles_getD_sub _ j (by rw [rawAngles_length]; omega)

/-- Witness for C5 on a concrete 2-point polyline. -/
theorem tangentAngles_unwrapped_witness :
    0 + 1 < ([⟨0, 0⟩, ⟨1, 0⟩] : List PointR).length ∧
    |(buildRibbonGeometry [⟨0, 0⟩, ⟨1, 0⟩] 1).tangentAngles.getD
        (2 * (0 + 1)) 0 -
      (buildRibbonGeometry [⟨0, 0⟩, ⟨1, 0⟩] 1).tangentAngles.getD
        (2 * 0) 0| ≤ Real.pi :=
  ⟨by norm_num,
   (tangentAngles_unwrapped [⟨0, 0⟩, ⟨1, 0⟩] 1 0 (by norm_num)).1⟩

end CursorVision
